import Mathlib

/-!
# Verification of the `grapher` in-process property-graph engine

This development shallowly embeds the Go sources of the `grapher` repository
(concurrent graph store `internal/graph/graph.go`, snapshot loader
`internal/graph/save.go`, DFS traversal engine `pkg/traverse/dfs.go`, the
Cypher-like scanner/parser `pkg/ast/*.go`, and the query executor drafts in
the `cypher` package) and proves or refutes the specification's claims about
them.

Modelling conventions:
* Go maps are embedded as association lists.  `alookup` returns the first
  binding, `aerase` removes a key, and `ainsert` replaces a binding; all map
  updates in the sources go through these, so the extensional behaviour
  matches Go map semantics.
* Go pointers (`*Node`, `*Edge`) are embedded as addresses (`Nat`) into
  explicit heaps carried by the store; this preserves the aliasing behaviour
  of the source (e.g. `UpdateEdge` writes through a shared pointer, and
  `AllNodes` hands out pointers into the live node table).
* Go's `float64` weights/properties are carried as `Rat`; the sources never
  perform float arithmetic on them beyond assignment and truncation, and no
  theorem below depends on non-rational float values (NaN/Inf conversions are
  implementation-defined in Go and are outside the model).
* Unbounded Go loops are embedded with an explicit fuel parameter; every
  theorem quantifying over executions quantifies over the fuel, and concrete
  executions are evaluated with fuel visibly larger than the number of loop
  iterations they take.
-/

set_option autoImplicit false

namespace Grapher


/-! ## Association lists (the embedding of Go maps) -/

/-- First-match lookup in an association list (Go `m[k]` read). -/
def alookup {α β : Type} [DecidableEq α] (l : List (α × β)) (k : α) : Option β :=
  match l with
  | [] => none
  | (k', v) :: rest => if k = k' then some v else alookup rest k

/-- Remove a key from an association list (Go `delete(m, k)`). -/
def aerase {α β : Type} [DecidableEq α] (l : List (α × β)) (k : α) : List (α × β) :=
  match l with
  | [] => []
  | (k', v) :: rest => if k' = k then aerase rest k else (k', v) :: aerase rest k

/-- Insert or replace a binding (Go `m[k] = v`). -/
def ainsert {α β : Type} [DecidableEq α] (l : List (α × β)) (k : α) (v : β) :
    List (α × β) :=
  (k, v) :: aerase l k

/-- The keys of an association list, as the claim's notion of the ids
"appearing as a key" of an index. -/
def akeys {α β : Type} (l : List (α × β)) : List α :=
  l.map Prod.fst

/-- The dynamic values stored in node properties / `Data` payloads
(`interface{}` respectively the generic `T` in the Go sources).  Go `float64`
values are carried as rationals; NaN/Inf are outside the model (their integer
conversions are implementation-defined in Go). -/
inductive PropVal where
  | vInt (n : Int)
  | vUint (n : Nat)
  | vFloat (q : Rat)
  | vStr (s : String)
  | vBool (b : Bool)
  | vNull
deriving DecidableEq, Repr

/-- Go integer conversion `int(u)` of a `uint64` value: reinterpretation of
the low 64 bits as a signed two's-complement integer. -/
def uintToInt (u : Nat) : Int :=
  let r : Nat := u % 2 ^ 64
  if r < 2 ^ 63 then (r : Int) else (r : Int) - 2 ^ 64

/-- Go float-to-int conversion `int(f)`: truncation toward zero. -/
def goTrunc (q : Rat) : Int :=
  if 0 ≤ q then q.floor else q.ceil

/-! ## The graph store (`internal/graph/graph.go`)

The store is embedded with explicit heaps: `nodes`, `out` and `inn` hold
addresses (`Nat`), mirroring the `*Node`/`*Edge` pointers of the source, so
that aliasing (two index entries holding the same `*Edge`, `AllNodes` handing
out live `*Node` pointers) is preserved.  `inn` is the source's `in` index
(`in` is reserved in Lean). -/

inductive GErr where
  | nodeExists
  | nodeNotFound
  | edgeExists
  | edgeNotFound
  | invalidInput
deriving DecidableEq, Repr

/-- Outcome of a store operation: Go `error` results, plus an explicit
constructor for a Go runtime panic. -/
inductive GoResult where
  | ok
  | err (e : GErr)
  | panicked (msg : String)
deriving DecidableEq, Repr

structure GNode where
  id : String
  labels : List String
  /-- `Properties map[string]T`; `none` is a Go `nil` map. -/
  properties : Option (List (String × PropVal))
  /-- The `Data T` payload of the parallel draft of `Node` used by the query
  executors (`Data` is the Go zero value `nil` when unset). -/
  data : PropVal
deriving DecidableEq, Repr

structure GEdge where
  from_ : String
  to_ : String
  weight : Rat
deriving DecidableEq, Repr

structure Store where
  nodeHeap : List (Nat × GNode)
  edgeHeap : List (Nat × GEdge)
  nextAddr : Nat
  /-- `nodes map[string]*Node` -/
  nodes : List (String × Nat)
  /-- `out map[string]map[string]*Edge` (`from -> to -> *Edge`) -/
  out : List (String × List (String × Nat))
  /-- `in map[string]map[string]*Edge` (`to -> from -> *Edge`) -/
  inn : List (String × List (String × Nat))
deriving DecidableEq, Repr

/-- `New()` -/
def Store.new : Store := ⟨[], [], 0, [], [], []⟩

/-- The `*Edge` stored at `out[f][t]`, as an address. -/
def getOutAddr (g : Store) (f t : String) : Option Nat :=
  (alookup g.out f).bind (fun m => alookup m t)

/-- The `*Edge` stored at `in[t][f]`, as an address. -/
def getInAddr (g : Store) (t f : String) : Option Nat :=
  (alookup g.inn t).bind (fun m => alookup m f)

/-- `AddNode(id, props)`.  The stored node is `&Node{ID: id, Properties:
props}`: labels and data keep their Go zero values. -/
def addNode (g : Store) (id : String)
    (props : Option (List (String × PropVal))) : GoResult × Store :=
  if id = "" then (.err .invalidInput, g)
  else if (alookup g.nodes id).isSome then (.err .nodeExists, g)
  else
    let a := g.nextAddr
    (.ok, { g with nodeHeap := (a, ⟨id, [], props, .vNull⟩) :: g.nodeHeap,
                   nextAddr := a + 1,
                   nodes := ainsert g.nodes id a })

/-- `UpdateNodeProps(id, props)`.  Writing into a `nil` `Properties` map is a
Go runtime panic; ranging over a `nil` or empty argument map performs no
iteration and so cannot panic. -/
def updateNodeProps (g : Store) (id : String)
    (props : Option (List (String × PropVal))) : GoResult × Store :=
  match alookup g.nodes id with
  | none => (.err .nodeNotFound, g)
  | some a =>
    match alookup g.nodeHeap a with
    | none => (.err .nodeNotFound, g)
    | some n =>
      match props with
      | none => (.ok, g)
      | some [] => (.ok, g)
      | some ps =>
        match n.properties with
        | none => (.panicked "assignment to entry in nil map", g)
        | some nps =>
          let merged := ps.foldl (fun acc p => ainsert acc p.1 p.2) nps
          let n' : GNode := { n with properties := some merged }
          (.ok, { g with nodeHeap := ainsert g.nodeHeap a n' })

/-- One iteration of the edge-removal loops in `RemoveNode`/`RemoveEdge`:
`delete(outer[okey], ikey); if len(outer[okey]) == 0 { delete(outer, okey) }`
(a `delete` on a missing outer key is a Go no-op). -/
def eraseInnerAt (outer : List (String × List (String × Nat)))
    (okey ikey : String) : List (String × List (String × Nat)) :=
  match alookup outer okey with
  | none => outer
  | some m =>
    let m' := aerase m ikey
    if m' = [] then aerase outer okey else ainsert outer okey m'

/-- `RemoveNode(id)`: drop every incident edge from both indices, then the
node itself.  The two loops follow the source: first the out-edges of `id`
(cleaning the `in` index), then the remaining in-edges (cleaning `out`). -/
def removeNode (g : Store) (id : String) : GoResult × Store :=
  if (alookup g.nodes id).isNone then (.err .nodeNotFound, g)
  else
    let outAdj := (alookup g.out id).getD []
    let inn1 := outAdj.foldl (fun acc p => eraseInnerAt acc p.1 id) g.inn
    let out1 := aerase g.out id
    let inAdj := (alookup inn1 id).getD []
    let out2 := inAdj.foldl (fun acc p => eraseInnerAt acc p.1 id) out1
    let inn2 := aerase inn1 id
    (.ok, { g with nodes := aerase g.nodes id, out := out2, inn := inn2 })

/-- `addEdgeToIndex(from, to, edge)`: write the same `*Edge` into both
indices, materialising a missing inner map first. -/
def addEdgeToIndex (g : Store) (f t : String) (a : Nat) : Store :=
  let m := match alookup g.out f with | none => [] | some m => m
  let out' := ainsert g.out f (ainsert m t a)
  let m2 := match alookup g.inn t with | none => [] | some m2 => m2
  let inn' := ainsert g.inn t (ainsert m2 f a)
  { g with out := out', inn := inn' }

/-- `AddEdge(from, to, weight)`. -/
def addEdge (g : Store) (f t : String) (w : Rat) : GoResult × Store :=
  if f = "" ∨ t = "" then (.err .invalidInput, g)
  else if (alookup g.nodes f).isNone then (.err .nodeNotFound, g)
  else if (alookup g.nodes t).isNone then (.err .nodeNotFound, g)
  else if (getOutAddr g f t).isSome then (.err .edgeExists, g)
  else
    let a := g.nextAddr
    (.ok, addEdgeToIndex
      { g with edgeHeap := (a, ⟨f, t, w⟩) :: g.edgeHeap, nextAddr := a + 1 }
      f t a)

/-- `UpdateEdge(from, to, weight)`: a single write through the shared
`*Edge`; neither index is touched.  (The dangling-address branch is
unreachable for stores built through the public API.) -/
def updateEdge (g : Store) (f t : String) (w : Rat) : GoResult × Store :=
  match getOutAddr g f t with
  | none => (.err .edgeNotFound, g)
  | some a =>
    match alookup g.edgeHeap a with
    | none => (.ok, g)
    | some e => (.ok, { g with edgeHeap := ainsert g.edgeHeap a ({ e with weight := w }) })

/-- `RemoveEdge(from, to)`. -/
def removeEdge (g : Store) (f t : String) : GoResult × Store :=
  if (getOutAddr g f t).isNone then (.err .edgeNotFound, g)
  else (.ok, { g with out := eraseInnerAt g.out f t, inn := eraseInnerAt g.inn t f })

/-- `GetNode(id)` (`none` is the `NotFound` error). -/
def getNode (g : Store) (id : String) : Option GNode :=
  (alookup g.nodes id).bind (fun a => alookup g.nodeHeap a)

/-- `AllNodes()`: the returned slice holds the `*Node` pointers of the live
node table (iteration order of the Go map is embedded as table order). -/
def allNodes (g : Store) : List Nat :=
  g.nodes.map Prod.snd

/-- Reading the node values through a previously returned `[]*Node` slice. -/
def readThrough (g : Store) (ptrs : List Nat) : List (Option GNode) :=
  ptrs.map (fun a => alookup g.nodeHeap a)

/-- `GetOutEdges(from)`: the edges of `out[from]`, dereferenced. -/
def getOutEdges (g : Store) (f : String) : Option (List GEdge) :=
  if (alookup g.nodes f).isNone then none
  else some (((alookup g.out f).getD []).filterMap (fun p => alookup g.edgeHeap p.2))

/-- `GetInEdges(to)`: the edges of `in[to]`, dereferenced. -/
def getInEdges (g : Store) (t : String) : Option (List GEdge) :=
  if (alookup g.nodes t).isNone then none
  else some (((alookup g.inn t).getD []).filterMap (fun p => alookup g.edgeHeap p.2))

/-! ## The adjacency-index invariant (claim C2) -/

/-- Composite lookup `idx[k][k']` (missing outer key reads as the empty
map, as in Go). -/
def lookup2 (idx : List (String × List (String × Nat))) (k k' : String) :
    Option Nat :=
  (alookup idx k).bind (fun m => alookup m k')

/-- The operations of the store's public mutation API, in the order listed by
the claim. -/
inductive Op where
  | addNode (id : String) (props : Option (List (String × PropVal)))
  | addEdge (f t : String) (w : Rat)
  | updateEdge (f t : String) (w : Rat)
  | removeEdge (f t : String)
  | removeNode (id : String)

/-- The store state after a call; a failed (or panicking) call leaves the
store as it was. -/
def applyOp (g : Store) (op : Op) : Store :=
  match op with
  | .addNode id props => (addNode g id props).2
  | .addEdge f t w => (addEdge g f t w).2
  | .updateEdge f t w => (updateEdge g f t w).2
  | .removeEdge f t => (removeEdge g f t).2
  | .removeNode id => (removeNode g id).2

/-- The store reached from `New()` by a sequence of public calls. -/
def applyOps (ops : List Op) : Store := ops.foldl applyOp Store.new

/-- The two adjacency indices are in lockstep: `out[f][t]` and `in[t][f]`
either both miss or hold the same `*Edge`. -/
def Lockstep (g : Store) : Prop :=
  ∀ f t, getOutAddr g f t = getInAddr g t f

/-- Every outer key of an index is a node of the table. -/
def outerKeysOk (idx : List (String × List (String × Nat)))
    (nodes : List (String × Nat)) : Prop :=
  ∀ k, k ∈ akeys idx → (alookup nodes k).isSome = true

/-- Every inner key of an index is a node of the table. -/
def innerKeysOk (idx : List (String × List (String × Nat)))
    (nodes : List (String × Nat)) : Prop :=
  ∀ k m, alookup idx k = some m → ∀ k', k' ∈ akeys m → (alookup nodes k').isSome = true

/-- The store invariant claimed by the specification. -/
def Wf (g : Store) : Prop :=
  Lockstep g ∧ outerKeysOk g.out g.nodes ∧ innerKeysOk g.out g.nodes
    ∧ outerKeysOk g.inn g.nodes ∧ innerKeysOk g.inn g.nodes

inductive Direction where
  | outgoing
  | incoming
deriving DecidableEq, Repr

/-- The optional range filter (`WithRangeFilter`); `end_` is the source's
`End` predicate. -/
structure RangeFilter where
  start : GNode → Bool
  end_ : GNode → Bool

structure StackItem where
  node : GNode
  /-- The Go field is an `int`, but it starts at `0` and is only ever
  incremented, so it is carried as a `Nat`. -/
  depth : Nat
deriving DecidableEq, Repr

structure DFS where
  graph : Store
  /-- Head of the list is the top of the stack. -/
  stack : List StackItem
  visited : List String
  direction : Direction
  maxDepth : Int
  rangeFilter : Option RangeFilter
  inRange : Bool

def DFSOption := DFS → DFS

def withRangeFilter (s e : GNode → Bool) : DFSOption :=
  fun d => { d with rangeFilter := some ⟨s, e⟩ }

def withDirection (dir : Direction) : DFSOption :=
  fun d => { d with direction := dir }

def withMaxDepth (depth : Int) : DFSOption :=
  fun d => { d with maxDepth := depth }

/-- `NewDFS(g, startID, opts...)`: fails (`none`) on a missing start id. -/
def newDFS (g : Store) (startID : String) (opts : List DFSOption) :
    Option DFS :=
  (getNode g startID).map (fun sn =>
    opts.foldl (fun d o => o d)
      { graph := g, stack := [⟨sn, 0⟩], visited := [],
        direction := .outgoing, maxDepth := -1,
        rangeFilter := none, inRange := false })

def hasNext (d : DFS) : Bool := decide (d.stack ≠ [])

/-- `getNeighbors`: the nodes at the far end of the edges of the chosen
direction, skipping ids that fail `GetNode`. -/
def getNeighbors (d : DFS) (n : GNode) : List GNode :=
  let edgesOpt := match d.direction with
    | .incoming => getInEdges d.graph n.id
    | .outgoing => getOutEdges d.graph n.id
  match edgesOpt with
  | none => []
  | some edges =>
    edges.filterMap (fun e =>
      let neighborID := match d.direction with
        | .incoming => e.from_
        | .outgoing => e.to_
      getNode d.graph neighborID)

/-- The two sequential `inRange` updates of `Next` (enter the range on
`Start`, leave it again on `End`). -/
def updateInRange (rf : Option RangeFilter) (inR : Bool) (n : GNode) : Bool :=
  match rf with
  | none => inR
  | some rf =>
    let r1 := if ¬inR ∧ rf.start n then true else inR
    if r1 ∧ rf.end_ n then false else r1

/-- `Next()` of the range-filter version of the iterator.  One unit of fuel
is spent per iteration of the source's `for` loop; the loop runs until it
returns, so every theorem below quantifies over the fuel and concrete runs
use visibly sufficient fuel.  Pushing the unvisited neighbours in reverse
index order makes the first neighbour the new top of the stack, which the
cons-list embedding renders as prepending the filtered neighbour list. -/
def nextF : Nat → DFS → Option GNode × DFS
  | 0, d => (none, d)
  | fuel + 1, d =>
    match d.stack with
    | [] => (none, d)
    | item :: rest =>
      if item.node.id ∈ d.visited then nextF fuel { d with stack := rest }
      else
        let d1 := { d with stack := rest, visited := item.node.id :: d.visited }
        let d2 := { d1 with
          inRange := updateInRange d1.rangeFilter d1.inRange item.node }
        let newStack :=
          if d2.maxDepth < 0 ∨ (item.depth : Int) < d2.maxDepth then
            ((getNeighbors d2 item.node).filter
                (fun n => n.id ∉ d2.visited)).map
              (fun n => StackItem.mk n (item.depth + 1)) ++ d2.stack
          else d2.stack
        let d3 := { d2 with stack := newStack }
        match d3.rangeFilter with
        | some rf =>
          if d3.inRange ∨ rf.end_ item.node then (some item.node, d3)
          else nextF fuel d3
        | none => (some item.node, d3)

/-- Exhausting the iterator: call `Next` until it returns `nil`, collecting
the yielded nodes. -/
def runF : Nat → DFS → List GNode × DFS
  | 0, d => ([], d)
  | fuel + 1, d =>
    match nextF (fuel + 1) d with
    | (none, d') => ([], d')
    | (some n, d') =>
      let (l, d'') := runF fuel d'
      (n :: l, d'')

inductive IterResult where
  | ok
  /-- The source's `fmt.Errorf("遇到空节点")`, returned when `Next` yields
  `nil` although `HasNext` reported a non-empty stack. -/
  | errNilNode
  | errCallback (msg : String)
deriving DecidableEq, Repr

/-- `Iterate(fn)`: the caller's visitor returns `some msg` to abort. -/
def iterateF : Nat → DFS → (GNode → Option String) → IterResult × DFS
  | 0, d, _ => (.ok, d)
  | fuel + 1, d, f =>
    if hasNext d then
      match nextF (fuel + 1) d with
      | (none, d') => (.errNilNode, d')
      | (some n, d') =>
        match f n with
        | some msg => (.errCallback msg, d')
        | none => iterateF fuel d' f
    else (.ok, d)

/-! ## Hop distance (specification side, for claim C1)

`reachWithin g dir src j` is the set of node ids whose shortest hop-distance
from `src`, following edges of the chosen direction exactly as the traversal
engine resolves them, is at most `j`. -/

/-- The one-hop neighbour ids of `i`, as the engine resolves them. -/
def neighborIds (g : Store) (dir : Direction) (i : String) : List String :=
  match (match dir with
    | .incoming => getInEdges g i
    | .outgoing => getOutEdges g i) with
  | none => []
  | some edges =>
    edges.filterMap (fun e =>
      (getNode g (match dir with | .incoming => e.from_ | .outgoing => e.to_)).map
        GNode.id)

def reachWithin (g : Store) (dir : Direction) (src : String) : Nat → List String
  | 0 => [src]
  | j + 1 =>
    let prev := reachWithin g dir src j
    (prev ++ prev.flatMap (neighborIds g dir)).dedup

/-- The iteration invariant for the depth-bounded DFS: every frontier entry
at recorded depth `j` is within hop-distance `j` of the root, and the
recorded depths never exceed the bound. -/
def DFSInv (g : Store) (dir : Direction) (k : Nat) (root : String)
    (d : DFS) : Prop :=
  d.graph = g ∧ d.direction = dir ∧ d.maxDepth = (k : Int) ∧
  (∀ it ∈ d.stack, it.node.id ∈ reachWithin g dir root it.depth ∧ it.depth ≤ k)

/-- The graph `A→B, A→C, B→C, C→D` (edge insertion order chosen so that the
engine expands `B` before `C` from `A`). -/
def gC1 : Store := applyOps
  [Op.addNode "A" none, Op.addNode "B" none, Op.addNode "C" none,
   Op.addNode "D" none,
   Op.addEdge "A" "C" 1, Op.addEdge "A" "B" 1,
   Op.addEdge "B" "C" 1, Op.addEdge "C" "D" 1]

def dfsDefault : DFS :=
  ⟨Store.new, [], [], .outgoing, -1, none, false⟩

/-- The graph `A→B, A→C, B→D, D→C` (edge insertion order chosen so that the
engine expands `B` first from `A`): `C` is pushed twice before either copy is
popped, so after the first copy is visited the stack still holds the second,
and `Next` then returns `nil` with `HasNext` true. -/
def gC5 : Store := applyOps
  [Op.addNode "A" none, Op.addNode "B" none, Op.addNode "C" none,
   Op.addNode "D" none,
   Op.addEdge "A" "C" 1, Op.addEdge "A" "B" 1,
   Op.addEdge "B" "D" 1, Op.addEdge "D" "C" 1]

/-- `fmt.Sprint` on the property values of the model.  The float branch is an
approximation: Go prints integral float64 values below 1e21 as plain digits
and non-integral ones with a decimal point (never parseable by `Atoi`); no
theorem below depends on the float branch. -/
def goSprint (v : PropVal) : String :=
  match v with
  | .vStr s => s
  | .vInt n => toString n
  | .vUint n => toString n
  | .vBool b => if b then "true" else "false"
  | .vNull => "<nil>"
  | .vFloat q => if q.den = 1 then toString q.num
      else toString q.num ++ "." ++ toString q.den

/-- The node value produced by writing the merged properties through a
shared `*Node` pointer in `UpdateNodeProps`. -/
def mergeProps (n : GNode) (ps nps : List (String × PropVal)) : GNode :=
  { n with properties := some (ps.foldl (fun acc p => ainsert acc p.1 p.2) nps) }

structure GraphDTO where
  nodes : List GNode
  edges : List GEdge

def loadNodes : Store → List GNode → GoResult × Store
  | g, [] => (.ok, g)
  | g, n :: rest =>
    if n.id = "" then (.err .invalidInput, g)
    else
      let a := g.nextAddr
      loadNodes { g with nodeHeap := (a, n) :: g.nodeHeap, nextAddr := a + 1,
                         nodes := ainsert g.nodes n.id a } rest

def loadEdges : Store → List GEdge → GoResult × Store
  | g, [] => (.ok, g)
  | g, e :: rest =>
    if (alookup g.nodes e.from_).isNone then (.err .invalidInput, g)
    else if (alookup g.nodes e.to_).isNone then (.err .invalidInput, g)
    else
      let a := g.nextAddr
      loadEdges
        (addEdgeToIndex
          { g with edgeHeap := (a, e) :: g.edgeHeap, nextAddr := a + 1 }
          e.from_ e.to_ a)
        rest

/-- `LoadFromFile` after a successful decode of `dto`. -/
def loadFromFile (g : Store) (dto : GraphDTO) : GoResult × Store :=
  let g0 := { g with nodes := [], out := [], inn := [] }
  match loadNodes g0 dto.nodes with
  | (.ok, g1) => loadEdges g1 dto.edges
  | r => r

inductive EdgeDirection where
  | edgeUndefined
  | edgeRight
  | edgeLeft
  | edgeOutgoing
deriving DecidableEq, Repr

inductive OrderDirection where
  | ascending
  | descending
deriving DecidableEq, Repr

/-- The closed `Expr` variant set (`Variable`, `Symbol`, `StrLiteral`,
`IntegerLiteral`). -/
inductive Expr where
  | var (s : String)
  | symbol (s : String)
  | strLiteral (s : String)
  | integerLiteral (n : Int)
deriving DecidableEq, Repr

structure NodePattern where
  var : Option String
  labels : List String
  properties : List (String × Expr)
deriving DecidableEq, Repr

structure EdgePattern where
  direction : EdgeDirection
  var : Option String
  relTypes : List String
  properties : List (String × Expr)
  minHops : Option Int
  maxHops : Option Int
deriving DecidableEq, Repr

/-- The zero value of the Go `EdgePattern` struct. -/
def zeroEdgePattern : EdgePattern := ⟨.edgeUndefined, none, [], [], none, none⟩

inductive PatternElement where
  | node (np : NodePattern)
  | edge (ep : EdgePattern)
deriving DecidableEq, Repr

structure MatchPattern where
  var : Option String
  elements : List PatternElement
deriving DecidableEq, Repr

structure ReadingClause where
  optionalMatch : Bool
  pattern : List MatchPattern
  where_ : Option Expr
deriving DecidableEq, Repr

structure OrderBy where
  dir : OrderDirection
  item : Expr
deriving DecidableEq, Repr

structure SingleQuery where
  reading : List ReadingClause
  distinct : Bool
  returnItems : List Expr
  order : List OrderBy
  skip : Option Expr
  limit : Option Expr
deriving DecidableEq, Repr

structure Query where
  root : SingleQuery
deriving DecidableEq, Repr

/-! ## Go formatting/parsing primitives used by the executors -/

def digitsToInt : List Char → Option Nat
  | [] => none
  | cs => if cs.all Char.isDigit
      then some (cs.foldl (fun acc c => acc * 10 + (c.toNat - 48)) 0)
      else none

/-- `strconv.Atoi`: optional sign followed by at least one digit (64-bit
overflow is not modelled; no claim exercises it). -/
def goAtoi (s : String) : Option Int :=
  match s.toList with
  | [] => none
  | '+' :: rest => (digitsToInt rest).map (fun n => (n : Int))
  | '-' :: rest => (digitsToInt rest).map (fun n => -(n : Int))
  | cs => (digitsToInt cs).map (fun n => (n : Int))

/-- The node values of `AllNodes()`, dereferenced. -/
def allNodesVals (g : Store) : List GNode :=
  g.nodes.filterMap (fun p => alookup g.nodeHeap p.2)

/-! ## The `cypher` executor of `ExecuteQuery`/`traversePaths`
(the draft cited by C3 and C6) -/

/-- The traversal-internal parent-chain path. -/
inductive Path where
  | mk (current : GNode) (previous : Option Path) (depth : Nat)

def Path.current : Path → GNode
  | .mk c _ _ => c

def Path.depth : Path → Nat
  | .mk _ _ d => d

/-- Modelled from the spec: `Path.End()` of the query executor, whose
`ExecuteQuery` source is absent from `src/` (only unnamed drafts cite it).
Per §3 the parent chain is "used to recover the current end-node of a DFS
branch", so `End()` returns the path's current node. -/
def pathEnd : Path → GNode
  | .mk c _ _ => c

def pathContains : Path → GNode → Bool
  | .mk c none _, node => c.id = node.id
  | .mk c (some p) _, node => c.id = node.id || pathContains p node

/-- The edge slice gathered by the direction switch of `traversePaths`
(`EdgeRight` → out-edges, `EdgeLeft` → in-edges, default → both, where an
accessor error skips the expansion). -/
def dirEdges (g : Store) (dir : EdgeDirection) (id : String) : List GEdge :=
  match dir with
  | .edgeRight => (getOutEdges g id).getD []
  | .edgeLeft => (getInEdges g id).getD []
  | _ =>
    match getOutEdges g id, getInEdges g id with
    | some oe, some ie => oe ++ ie
    | _, _ => []

/-- The BFS queue loop of `traversePaths`; one unit of fuel per iteration. -/
def traverseLoop (g : Store) (dir : EdgeDirection) (minHops maxHops : Int) :
    Nat → List Path → List Path → List Path
  | 0, _, results => results
  | _ + 1, [], results => results
  | fuel + 1, currentPath :: queue, results =>
    let results :=
      if (currentPath.depth : Int) ≥ minHops
          ∧ (maxHops = -1 ∨ (currentPath.depth : Int) ≤ maxHops)
      then results ++ [currentPath] else results
    if maxHops ≠ -1 ∧ (currentPath.depth : Int) ≥ maxHops then
      traverseLoop g dir minHops maxHops fuel queue results
    else
      let edges := dirEdges g dir currentPath.current.id
      let newPaths := edges.filterMap (fun e =>
        match (if e.from_ = currentPath.current.id
            then getNode g e.to_ else getNode g e.from_) with
        | none => none
        | some nextNode =>
          if pathContains currentPath nextNode then none
          else some (Path.mk nextNode (some currentPath) (currentPath.depth + 1)))
      traverseLoop g dir minHops maxHops fuel (queue ++ newPaths) results

/-- `traversePaths(g, start, ep)` (hop defaults: `MinHops` 1, `MaxHops` −1 =
unbounded). -/
def traversePaths (g : Store) (start : GNode) (ep : EdgePattern)
    (fuel : Nat) : List Path :=
  let minHops : Int := match ep.minHops with | some m => m | none => 1
  let maxHops : Int := match ep.maxHops with | some m => m | none => -1
  traverseLoop g ep.direction minHops maxHops fuel [Path.mk start none 0] []

/-- `hasAllLabels`. -/
def hasAllLabels (n : GNode) (labels : List String) : Bool :=
  labels.all (fun l => n.labels.contains l)

/-- The property loop of `matchProperties` (the `cypher` draft executor's
version, using `strconv.Atoi(fmt.Sprint(nodeVal))` for integer literals). -/
def matchProperties (n : GNode) : List (String × Expr) → Except String Bool
  | [] => .ok true
  | (key, expr) :: rest =>
    match (match n.properties with
      | none => none
      | some ps => alookup ps key) with
    | none => .ok false
    | some nodeVal =>
      match expr with
      | .strLiteral v =>
        if nodeVal ≠ .vStr v then .ok false else matchProperties n rest
      | .integerLiteral v =>
        match goAtoi (goSprint nodeVal) with
        | none => .ok false
        | some num => if num ≠ v then .ok false else matchProperties n rest
      | .var _ => .error "variable properties not supported yet"
      | _ => .error "unsupported property type"

/-- `findNodesByPattern`: filter `AllNodes()` by labels and properties. -/
def findNodesLoop (g : Store) (np : NodePattern) :
    List GNode → Except String (List GNode)
  | [] => .ok []
  | n :: rest =>
    if np.labels ≠ [] ∧ ¬ hasAllLabels n np.labels then findNodesLoop g np rest
    else
      match matchProperties n np.properties with
      | .error e => .error e
      | .ok false => findNodesLoop g np rest
      | .ok true =>
        match findNodesLoop g np rest with
        | .error e => .error e
        | .ok l => .ok (n :: l)

def findNodesByPattern (g : Store) (np : NodePattern) :
    Except String (List GNode) :=
  findNodesLoop g np (allNodesVals g)

abbrev Row := List (String × PropVal)

/-- The variable/edge extraction loop at the top of `ExecuteQuery`:
`startVar` is the first node variable seen, `endVar` the last later one, and
`edgePattern` the last edge pattern seen (zero value if none). -/
def scanBindings (mps : List MatchPattern) : String × String × EdgePattern :=
  mps.foldl (fun acc mp =>
    mp.elements.foldl (fun acc elem =>
      match elem with
      | .node np =>
        match np.var with
        | some v => if acc.1 = "" then (v, acc.2.1, acc.2.2)
            else (acc.1, v, acc.2.2)
        | none => acc
      | .edge ep => (acc.1, acc.2.1, ep)) acc) ("", "", zeroEdgePattern)

/-- Modelled from the spec: the result-keeping step of `ExecuteQuery`
(absent from `src/`).  §4.4 step 4 deduplicates kept results by the pair
`(start_node_id, end_node_id)`, and step 5 projects a row binding the bound
pattern variables to the node values.  The accumulator carries the seen key
set and the kept rows, each tagged with its dedup key. -/
def collectStep (startVar endVar : String) (startNode : GNode)
    (acc : List (String × String) × List ((String × String) × Row))
    (path : Path) :
    List (String × String) × List ((String × String) × Row) :=
  let endNode := pathEnd path
  let key := (startNode.id, endNode.id)
  if key ∈ acc.1 then acc
  else
    let row : Row :=
      (if startVar ≠ "" then [(startVar, startNode.data)] else []) ++
      (if endVar ≠ "" then [(endVar, endNode.data)] else [])
    (key :: acc.1, acc.2 ++ [(key, row)])

/-- Modelled from the spec: the collection over one start candidate's kept
paths; "deduplicate kept results" (§4.4 step 4) is one deduplication over
all kept results, so the seen-key set is threaded through. -/
def collectRows (startVar endVar : String) (startNode : GNode)
    (acc : List (String × String) × List ((String × String) × Row))
    (paths : List Path) :
    List (String × String) × List ((String × String) × Row) :=
  paths.foldl (collectStep startVar endVar startNode) acc

/-- `ExecuteQuery` down to the kept rows still tagged with their dedup key
(result keeping modelled from the spec, §4.4 steps 4-5; the candidate and
traversal machinery follows §4.4 steps 1-3).  The index expressions
`Pattern[0].Elements[0]` panic in Go on empty slices; those branches are
modelled as errors and are unreachable for parser-produced queries. -/
def executeQueryTagged (q : Query) (g : Store) (fuel : Nat) :
    Except String (List ((String × String) × Row)) :=
  let sq := q.root
  match sq.reading with
  | [] => .error "no MATCH clause found"
  | matchClause :: _ =>
    let b := scanBindings matchClause.pattern
    let startVar := b.1
    let endVar := b.2.1
    let edgePattern := b.2.2
    match matchClause.pattern with
    | [] => .error "runtime panic: index out of range"
    | mp0 :: _ =>
      match mp0.elements with
      | [] => .error "runtime panic: index out of range"
      | .edge _ :: _ => .error "expected NodePattern"
      | .node nodePattern :: _ =>
        match findNodesByPattern g nodePattern with
        | .error e => .error e
        | .ok startNodes =>
          .ok (startNodes.foldl (fun acc startNode =>
            collectRows startVar endVar startNode acc
              (traversePaths g startNode edgePattern fuel)) ([], [])).2

/-- `ExecuteQuery`: the kept rows with the internal dedup keys dropped. -/
def executeQuery (q : Query) (g : Store) (fuel : Nat) :
    Except String (List Row) :=
  (executeQueryTagged q g fuel).map (fun l => l.map Prod.snd)

/-- The chain graph `A→B` built through the public API. -/
def gC3 : Store := applyOps
  [Op.addNode "A" none, Op.addNode "B" none, Op.addEdge "A" "B" 1]

/-- The parsed query `MATCH (a)-[*1..1]->(b) RETURN a, b LIMIT 0`. -/
def qC3 : Query :=
  ⟨{ reading := [⟨false,
      [⟨none, [.node ⟨some "a", [], []⟩,
               .edge ⟨.edgeRight, none, [], [], some 1, some 1⟩,
               .node ⟨some "b", [], []⟩]⟩], none⟩],
     distinct := false,
     returnItems := [.var "a", .var "b"],
     order := [], skip := none,
     limit := some (.integerLiteral 0) }⟩

/-- The property loop of `nodeMatchesPattern`: the `IntegerLiteral` branch
switches on the reflected kind of the stored value — signed integer kinds
compare `int(val.Int())`, unsigned kinds `int(val.Uint())`, float kinds the
truncation `int(val.Float())`, strings `strconv.Atoi`, and every other kind
makes the predicate false.  The function is `Bool`-valued: no error path
exists. -/
def nodeMatchesProps (node : GNode) : List (String × Expr) → Bool
  | [] => true
  | (key, expr) :: rest =>
    match (match node.properties with
      | none => none
      | some ps => alookup ps key) with
    | none => false
    | some nodeVal =>
      match expr with
      | .strLiteral v =>
        if goSprint nodeVal ≠ v then false else nodeMatchesProps node rest
      | .integerLiteral expected =>
        (match nodeVal with
         | .vInt n =>
           if n ≠ expected then false else nodeMatchesProps node rest
         | .vUint u =>
           if uintToInt u ≠ expected then false else nodeMatchesProps node rest
         | .vFloat q =>
           if goTrunc q ≠ expected then false else nodeMatchesProps node rest
         | .vStr st =>
           match goAtoi st with
           | none => false
           | some parsed =>
             if parsed ≠ expected then false else nodeMatchesProps node rest
         | _ => false)
      | _ => false

/-- `nodeMatchesPattern(np)`: a `nil` pattern matches everything. -/
def nodeMatchesPattern (np : Option NodePattern) (node : GNode) : Bool :=
  match np with
  | none => true
  | some np => nodeMatchesProps node np.properties

/-- Modelled from the spec: the integer interpretation of a stored value. -/
def asIntegerInterp : PropVal → Option Int
  | .vInt n => some n
  | _ => none

/-- Modelled from the spec: the unsigned-integer interpretation. -/
def asUnsignedInterp : PropVal → Option Int
  | .vUint u => some (uintToInt u)
  | _ => none

/-- Modelled from the spec: the floating-point (truncated) interpretation. -/
def asFloatTruncInterp : PropVal → Option Int
  | .vFloat q => some (goTrunc q)
  | _ => none

/-- Modelled from the spec: the string-parsed-as-integer interpretation. -/
def asStringIntInterp : PropVal → Option Int
  | .vStr st => goAtoi st
  | _ => none

/-- Modelled from the spec sentence of §7: comparing an `IntegerLiteral`
against a stored property "attempts, in order, integer, unsigned-integer,
floating-point (truncated), and string-parsed-as-integer interpretations of
the stored value; if none match, the predicate is false (not an error)". -/
def specIntegerMatch (v : PropVal) (expected : Int) : Bool :=
  match (asIntegerInterp v).orElse (fun _ =>
      (asUnsignedInterp v).orElse (fun _ =>
        (asFloatTruncInterp v).orElse (fun _ => asStringIntInterp v))) with
  | some n => decide (n = expected)
  | none => false

/-- Modelled from the spec: the property predicate with the coercion rule
spelled as §7 states it (the string-literal branch is taken unchanged from
the code, as the claim concerns only the `IntegerLiteral` comparison). -/
def specNodeProps (node : GNode) : List (String × Expr) → Bool
  | [] => true
  | (key, expr) :: rest =>
    match (match node.properties with
      | none => none
      | some ps => alookup ps key) with
    | none => false
    | some nodeVal =>
      match expr with
      | .strLiteral v =>
        if goSprint nodeVal ≠ v then false else specNodeProps node rest
      | .integerLiteral expected =>
        if specIntegerMatch nodeVal expected then specNodeProps node rest
        else false
      | _ => false

def specNodeMatches (np : Option NodePattern) (node : GNode) : Bool :=
  match np with
  | none => true
  | some np => specNodeProps node np.properties

/-- The token set of `token.go`. -/
inductive Tok where
  | tILLEGAL | tEOF | tWS | tCOMMENT | tREL_RANGE
  | tIDENT | tNUMBER | tINTEGER | tSTRING | tBADSTRING | tBADESCAPE
  | tTRUE | tFALSE | tNULL
  | tPLUS | tSUB | tMUL | tDIV | tMOD | tPOW
  | tAND | tOR | tXOR | tNOT
  | tEQ | tNEQ | tLT | tLTE | tGT | tGTE
  | tINC | tBAR
  | tLPAREN | tRPAREN | tLBRACE | tRBRACE | tLBRACKET | tRBRACKET
  | tCOMMA | tCOLON | tSEMICOLON | tDOT | tDOUBLEDOT | tEDGE_RIGHT | tEDGE_LEFT
  | tADD | tALL | tAS | tASC | tASCENDING | tBY | tCASE | tCONSTRAINT | tCONTAINS
  | tCREATE | tDELETE | tDESC | tDESCENDING | tDETACH | tDISTINCT | tDO | tDROP
  | tELSE | tEND | tENDS | tEXISTS | tFOR | tIN | tIS | tLIMIT | tMANDATORY
  | tMATCH | tMERGE | tOF | tON | tOPTIONAL | tORDER | tREMOVE | tREQUIRE
  | tRETURN | tSCALAR | tSET | tSKIP | tSTARTS | tTHEN | tUNION | tUNIQUE
  | tUNWIND | tWHEN | tWHERE | tWITH
deriving DecidableEq, Repr

/-- The `tokens` string array (tokens absent from the array have the zero
value `""`). -/
def tokString : Tok → String
  | .tILLEGAL => "ILLEGAL"
  | .tEOF => "EOF"
  | .tWS => "WS"
  | .tREL_RANGE => "REL_RANGE"
  | .tIDENT => "IDENT"
  | .tNUMBER => "NUMBER"
  | .tSTRING => "STRING"
  | .tTRUE => "TRUE"
  | .tFALSE => "FALSE"
  | .tPLUS => "+"
  | .tSUB => "-"
  | .tMUL => "*"
  | .tDIV => "/"
  | .tMOD => "%"
  | .tPOW => "^"
  | .tAND => "AND"
  | .tOR => "OR"
  | .tXOR => "XOR"
  | .tNOT => "NOT"
  | .tEQ => "="
  | .tNEQ => "<>"
  | .tLT => "<"
  | .tLTE => "<="
  | .tGT => ">"
  | .tGTE => ">="
  | .tLPAREN => "("
  | .tRPAREN => ")"
  | .tLBRACE => "\x7b"
  | .tRBRACE => "\x7d"
  | .tLBRACKET => "["
  | .tRBRACKET => "]"
  | .tCOMMA => ","
  | .tCOLON => ":"
  | .tSEMICOLON => ";"
  | .tDOT => "."
  | .tDOUBLEDOT => ".."
  | .tEDGE_RIGHT => "->"
  | .tEDGE_LEFT => "<-"
  | .tADD => "ADD"
  | .tALL => "ALL"
  | .tAS => "AS"
  | .tASC => "ASC"
  | .tASCENDING => "ASCENDING"
  | .tBY => "BY"
  | .tCASE => "CASE"
  | .tCONSTRAINT => "CONSTRAINT"
  | .tCONTAINS => "CONTAINS"
  | .tCREATE => "CREATE"
  | .tDELETE => "DELETE"
  | .tDESC => "DESC"
  | .tDESCENDING => "DESCENDING"
  | .tDETACH => "DETACH"
  | .tDISTINCT => "DISTINCT"
  | .tDO => "DO"
  | .tDROP => "DROP"
  | .tELSE => "ELSE"
  | .tEND => "END"
  | .tENDS => "ENDS"
  | .tEXISTS => "EXISTS"
  | .tFOR => "FOR"
  | .tIN => "IN"
  | .tIS => "IS"
  | .tLIMIT => "LIMIT"
  | .tMANDATORY => "MANDATORY"
  | .tMATCH => "MATCH"
  | .tMERGE => "MERGE"
  | .tOF => "OF"
  | .tON => "ON"
  | .tOPTIONAL => "OPTIONAL"
  | .tORDER => "ORDER"
  | .tREMOVE => "REMOVE"
  | .tREQUIRE => "REQUIRE"
  | .tRETURN => "RETURN"
  | .tSCALAR => "SCALAR"
  | .tSET => "SET"
  | .tSKIP => "SKIP"
  | .tSTARTS => "STARTS"
  | .tTHEN => "THEN"
  | .tUNION => "UNION"
  | .tUNIQUE => "UNIQUE"
  | .tUNWIND => "UNWIND"
  | .tWHEN => "WHEN"
  | .tWHERE => "WHERE"
  | .tWITH => "WITH"
  | _ => ""

/-- `tokstr`: the literal if non-empty, else the token's string. -/
def tokstr (tok : Tok) (lit : String) : String :=
  if lit ≠ "" then lit else tokString tok

/-- The keyword table built by `init()` in `token.go`: each keyword token's
lowercased string, plus the logical operators and `true`/`false`/`null`. -/
def keywordList : List (String × Tok) :=
  [("add", .tADD), ("all", .tALL), ("as", .tAS), ("asc", .tASC),
   ("ascending", .tASCENDING), ("by", .tBY), ("case", .tCASE),
   ("constraint", .tCONSTRAINT), ("contains", .tCONTAINS),
   ("create", .tCREATE), ("delete", .tDELETE), ("desc", .tDESC),
   ("descending", .tDESCENDING), ("detach", .tDETACH),
   ("distinct", .tDISTINCT), ("do", .tDO), ("drop", .tDROP),
   ("else", .tELSE), ("end", .tEND), ("ends", .tENDS),
   ("exists", .tEXISTS), ("for", .tFOR), ("in", .tIN), ("is", .tIS),
   ("limit", .tLIMIT), ("mandatory", .tMANDATORY), ("match", .tMATCH),
   ("merge", .tMERGE), ("of", .tOF), ("on", .tON),
   ("optional", .tOPTIONAL), ("order", .tORDER), ("remove", .tREMOVE),
   ("require", .tREQUIRE), ("return", .tRETURN), ("scalar", .tSCALAR),
   ("set", .tSET), ("skip", .tSKIP), ("starts", .tSTARTS),
   ("then", .tTHEN), ("union", .tUNION), ("unique", .tUNIQUE),
   ("unwind", .tUNWIND), ("when", .tWHEN), ("where", .tWHERE),
   ("with", .tWITH),
   ("and", .tAND), ("or", .tOR), ("xor", .tXOR), ("not", .tNOT),
   ("true", .tTRUE), ("false", .tFALSE), ("null", .tNULL)]

/-- ASCII lowercasing (`strings.ToLower`; identifiers here are ASCII). -/
def goToLower (s : String) : String :=
  (s.toList.map (fun c =>
    if 'A' ≤ c ∧ c ≤ 'Z' then Char.ofNat (c.toNat + 32) else c)).asString

/-- `Lookup`: keyword table on the lowercased identifier, else `IDENT`. -/
def lookupTok (ident : String) : Tok :=
  (alookup keywordList (goToLower ident)).getD .tIDENT

def eofCh : Char := Char.ofNat 0

def quoteCh : Char := Char.ofNat 39

def backtickCh : Char := Char.ofNat 96

def isWhitespaceCh (c : Char) : Bool := c = ' ' ∨ c = '\t' ∨ c = '\n'

def isLetterCh (c : Char) : Bool :=
  ('a' ≤ c ∧ c ≤ 'z') ∨ ('A' ≤ c ∧ c ≤ 'Z')

def isDigitCh (c : Char) : Bool := '0' ≤ c ∧ c ≤ '9'

def isIdentCh (c : Char) : Bool := isLetterCh c ∨ isDigitCh c ∨ c = '_'

/-- The reader folds `\r\n` into `\n` (a lone `\r` is kept); pushed-back
characters replay already folded, so folding the stream once up front is
equivalent. -/
def foldCRLF : List Char → List Char
  | [] => []
  | '\r' :: '\n' :: rest => '\n' :: foldCRLF rest
  | '\r' :: rest => '\r' :: foldCRLF rest
  | c :: rest => c :: foldCRLF rest

/-- A scan step result: token, literal, and the remaining stream (with any
characters the source pushed back via `unread` re-included). -/
abbrev ScanRes := Tok × String × List Char

/-- The loop of `ScanString` after the opening quote: `ending` closes the
string, a newline or end of input yields `BADSTRING` (partial literal), a
backslash escapes `n`, `\`, both quotes and the backtick, and any other
escape yields `BADESCAPE` whose literal is the two offending characters
(at end of input the second is the `eof` rune 0). -/
def scanStringLoop (fuel : Nat) (ending : Char) (buf : String)
    (cs : List Char) : ScanRes :=
  match fuel, cs with
  | _, [] => (.tBADSTRING, buf, [])
  | 0, _ => (.tBADSTRING, buf, [])
  | fuel + 1, c :: rest =>
    if c = ending then (.tSTRING, buf, rest)
    else if c = '\n' then (.tBADSTRING, buf, rest)
    else if c = '\\' then
      match rest with
      | [] => (.tBADESCAPE, String.mk [c, eofCh], [])
      | c1 :: rest1 =>
        if c1 = 'n' then scanStringLoop fuel ending (buf.push '\n') rest1
        else if c1 = '\\' then scanStringLoop fuel ending (buf.push '\\') rest1
        else if c1 = '"' then scanStringLoop fuel ending (buf.push '"') rest1
        else if c1 = quoteCh then scanStringLoop fuel ending (buf.push quoteCh) rest1
        else if c1 = backtickCh then scanStringLoop fuel ending (buf.push backtickCh) rest1
        else (.tBADESCAPE, String.mk [c, c1], rest1)
    else scanStringLoop fuel ending (buf.push c) rest

/-- `scanString`: the stream starts at the quote character.  Each loop
iteration consumes at least one character, so `length + 1` fuel never
runs out (the fuel-zero arm is unreachable). -/
def scanStringAt : List Char → ScanRes
  | [] => (.tBADSTRING, "", [])
  | ending :: rest => scanStringLoop (rest.length + 1) ending "" rest

/-- `ScanBareIdent`: the maximal identifier-character run. -/
def scanBareIdent (cs : List Char) : String × List Char :=
  ((cs.takeWhile isIdentCh).asString, cs.dropWhile isIdentCh)

/-- The tail of `scanIdent`'s loop once a bare identifier has been read:
a quote switches to string scanning (returning `IDENT` with the string's
literal, discarding the buffer — the source's quirk), anything else ends
the identifier. -/
def scanIdentFinish (lookup : Bool) (buf : String) (cs : List Char) : ScanRes :=
  match cs with
  | c :: _ =>
    if c = '"' ∨ c = quoteCh ∨ c = backtickCh then
      match scanStringAt cs with
      | (.tBADSTRING, l, rest) => (.tBADSTRING, l, rest)
      | (.tBADESCAPE, l, rest) => (.tBADESCAPE, l, rest)
      | (_, l, rest) => (.tIDENT, l, rest)
    else
      if lookup ∧ lookupTok buf ≠ .tIDENT then (lookupTok buf, buf, cs)
      else (.tIDENT, buf, cs)
  | [] =>
    if lookup ∧ lookupTok buf ≠ .tIDENT then (lookupTok buf, buf, [])
    else (.tIDENT, buf, [])

/-- `scanIdent`: the stream starts at the first character (pushed back by
`Scan`). -/
def scanIdentAt (lookup : Bool) (cs : List Char) : ScanRes :=
  match cs with
  | [] => scanIdentFinish lookup "" []
  | c :: _ =>
    if c = '"' ∨ c = quoteCh ∨ c = backtickCh then scanIdentFinish lookup "" cs
    else if isIdentCh c then
      let (bare, rest) := scanBareIdent cs
      scanIdentFinish lookup bare rest
    else scanIdentFinish lookup "" cs

/-- The body of `scanNumber` after the current-character pushback: digits,
then an optional fraction.  Without a fraction the source calls `unread`
twice, pushing back both the delimiter and the last digit consumed — the
returned stream re-includes that digit. -/
def scanNumberBody (cs : List Char) : ScanRes :=
  let ds := cs.takeWhile isDigitCh
  match cs.dropWhile isDigitCh with
  | [] =>
    (match ds.getLast? with
     | some d => (.tINTEGER, ds.asString, [d])
     | none => (.tINTEGER, "", []))
  | c0 :: rest2 =>
    if c0 = '.' then
      match rest2 with
      | [] => (.tNUMBER, ds.asString, [])
      | c1 :: rest3 =>
        if isDigitCh c1 then
          (.tNUMBER, (ds ++ [c0, c1] ++ rest3.takeWhile isDigitCh).asString,
            rest3.dropWhile isDigitCh)
        else (.tNUMBER, ds.asString, rest2)
    else
      match ds.getLast? with
      | some d => (.tINTEGER, ds.asString, d :: c0 :: rest2)
      | none => (.tINTEGER, "", c0 :: rest2)

/-- `scanNumber`: the stream starts at the current character.  The leading
dot check is dead code from `Scan` (which only dispatches here on a digit)
but embedded anyway. -/
def scanNumberAt (cs : List Char) : ScanRes :=
  match cs with
  | [] => (.tINTEGER, "", [])
  | c :: rest =>
    if c = '.' then
      match rest with
      | [] => (.tILLEGAL, ".", [])
      | c1 :: _ =>
        if isDigitCh c1 then scanNumberBody cs
        else (.tILLEGAL, ".", rest)
    else scanNumberBody cs

/-- A legal character inside `[*...]`: digit, dot or whitespace. -/
def isRelRangeChar (c : Char) : Bool :=
  isDigitCh c ∨ c = '.' ∨ isWhitespaceCh c

/-- `scanRelRange`: append each character, close on `]` (`REL_RANGE`); end
of input or a character failing `isRelRangeChar` yields `ILLEGAL` with the
literal gathered so far. -/
def scanRelRangeLoop (buf : String) : List Char → ScanRes
  | [] => (.tILLEGAL, buf, [])
  | c :: rest =>
    if c = ']' then (.tREL_RANGE, buf.push c, rest)
    else if ¬ isRelRangeChar c then (.tILLEGAL, buf.push c, rest)
    else scanRelRangeLoop (buf.push c) rest

/-- `skipUntilEndComment` (flag = a `*` was just seen): `some` of the rest
after `*/`, `none` at end of input. -/
def skipCommentBody : Bool → List Char → Option (List Char)
  | _, [] => none
  | true, c :: rest =>
    if c = '/' then some rest
    else if c = '*' then skipCommentBody true rest
    else skipCommentBody false rest
  | false, c :: rest => skipCommentBody (c = '*') rest

/-- `skipUntilNewline`. -/
def skipToNewline : List Char → List Char
  | [] => []
  | c :: rest => if c = '\n' then rest else skipToNewline rest

/-- `Scanner.Scan`: one token from the stream. -/
def scanToken (cs : List Char) : ScanRes :=
  match cs with
  | [] => (.tEOF, "EOF", [])
  | c :: rest =>
    if isWhitespaceCh c then
      (.tWS, (c :: rest.takeWhile isWhitespaceCh).asString,
        rest.dropWhile isWhitespaceCh)
    else if isLetterCh c ∨ c = '_' then scanIdentAt true cs
    else if isDigitCh c then scanNumberAt cs
    else if c = '"' ∨ c = quoteCh then scanStringAt cs
    else if c = backtickCh then scanIdentAt false cs
    else if c = '+' then
      match rest with
      | '=' :: rest2 => (.tINC, tokString .tINC, rest2)
      | _ => (.tPLUS, "+", rest)
    else if c = '*' then (.tMUL, "*", rest)
    else if c = '%' then (.tMOD, "%", rest)
    else if c = '(' then (.tLPAREN, "(", rest)
    else if c = ')' then (.tRPAREN, ")", rest)
    else if c = '\x7b' then (.tLBRACE, "\x7b", rest)
    else if c = '\x7d' then (.tRBRACE, "\x7d", rest)
    else if c = '[' then
      match rest with
      | '*' :: rest2 => scanRelRangeLoop "[*" rest2
      | _ => (.tLBRACKET, "[", rest)
    else if c = ']' then (.tRBRACKET, "]", rest)
    else if c = ',' then (.tCOMMA, ",", rest)
    else if c = ';' then (.tSEMICOLON, ";", rest)
    else if c = ':' then (.tCOLON, ":", rest)
    else if c = '-' then
      match rest with
      | '>' :: rest2 => (.tEDGE_RIGHT, "->", rest2)
      | _ => (.tSUB, "-", rest)
    else if c = '=' then (.tEQ, "=", rest)
    else if c = '.' then
      match rest with
      | '.' :: rest2 => (.tDOUBLEDOT, "..", rest2)
      | _ => (.tDOT, ".", rest)
    else if c = '|' then (.tBAR, tokString .tBAR, rest)
    else if c = '<' then
      match rest with
      | '>' :: rest2 => (.tNEQ, "<>", rest2)
      | '=' :: rest2 => (.tLTE, "<=", rest2)
      | '-' :: rest2 => (.tEDGE_LEFT, "<-", rest2)
      | _ => (.tLT, "<", rest)
    else if c = '>' then
      match rest with
      | '=' :: rest2 => (.tGTE, ">=", rest2)
      | _ => (.tGT, ">", rest)
    else if c = '/' then
      match rest with
      | '*' :: rest2 =>
        (match skipCommentBody false rest2 with
         | some rest3 => (.tCOMMENT, "/*", rest3)
         | none => (.tILLEGAL, "/*", []))
      | '/' :: rest2 => (.tCOMMENT, "//", skipToNewline rest2)
      | _ => (.tDIV, "/", rest)
    else (.tILLEGAL, String.mk [c], rest)

/-- Tokenize up to and including the first `EOF` token (fuel bounds the
token count; the scanner can fail to progress, e.g. `scanNumber`'s double
`unread` re-reads the last digit forever). -/
def tokenize (fuel : Nat) (cs : List Char) : Option (List (Tok × String)) :=
  match fuel with
  | 0 => none
  | fuel + 1 =>
    match scanToken cs with
    | (.tEOF, l, _) => some [(.tEOF, l)]
    | (t, l, rest) =>
      match tokenize fuel rest with
      | some ts => some ((t, l) :: ts)
      | none => none

/-- Parser state: the token stream and the cursor (`Unscan` = decrement;
reads past the end replay `EOF`, as the source scanner does). -/
structure PState where
  toks : List (Tok × String)
  idx : Nat
deriving Repr

def pScan (p : PState) : (Tok × String) × PState :=
  (p.toks.getD p.idx (.tEOF, "EOF"), ⟨p.toks, p.idx + 1⟩)

def pUnscan (p : PState) : PState := ⟨p.toks, p.idx - 1⟩

def pScanIWAux : Nat → PState → (Tok × String) × PState
  | 0, p => pScan p
  | n + 1, p =>
    let (tl, p1) := pScan p
    if tl.1 = .tWS ∨ tl.1 = .tCOMMENT then pScanIWAux n p1 else (tl, p1)

/-- `ScanIgnoreWhitespace`: skip `WS` and `COMMENT` tokens.  The internal
bound always suffices: past the end every read is `EOF`. -/
def pScanIW (p : PState) : (Tok × String) × PState :=
  pScanIWAux (p.toks.length + 1 - p.idx) p

inductive PError where
  | parseErr (found : String) (expected : List String)
  | msgErr (s : String)
  | fuelOut
deriving DecidableEq, Repr

/-- `ScanExpression`. -/
def scanExpression (p : PState) : Except PError (Expr × PState) :=
  let (tl, p1) := pScanIW p
  match tl.1 with
  | .tIDENT => .ok (.var tl.2, p1)
  | .tSTRING => .ok (.strLiteral tl.2, p1)
  | .tINTEGER => .ok (.integerLiteral ((goAtoi tl.2).getD 0), p1)
  | _ => .error (.parseErr (tokstr tl.1 tl.2) ["identifier", "literal"])

/-- The key-value loop of `ScanProperties` (`props[key] = expr` is Go-map
assignment, modelled by `ainsert`). -/
def scanPropsLoop (fuel : Nat) (props : List (String × Expr)) (p : PState) :
    Except PError (List (String × Expr) × PState) :=
  match fuel with
  | 0 => .error .fuelOut
  | fuel + 1 =>
    let (tk, p1) := pScanIW p
    if tk.1 = .tIDENT then
      let (tc, p2) := pScanIW p1
      if tc.1 = .tCOLON then
        match scanExpression p2 with
        | .error e => .error e
        | .ok (expr, p3) =>
          let props1 := ainsert props tk.2 expr
          let (tcm, p4) := pScanIW p3
          if tcm.1 = .tCOMMA then scanPropsLoop fuel props1 p4
          else .ok (props1, pUnscan p4)
      else .error (.parseErr (tokstr tc.1 tc.2) [":"])
    else .error (.parseErr (tokstr tk.1 tk.2) ["identifier"])

/-- `ScanProperties`: `none` when no `{` follows (the source's `nil` map
pointer). -/
def scanProperties (fuel : Nat) (p : PState) :
    Except PError (Option (List (String × Expr)) × PState) :=
  let (tl, p1) := pScanIW p
  if tl.1 = .tLBRACE then
    match scanPropsLoop fuel [] p1 with
    | .error e => .error e
    | .ok (props, p2) =>
      let (tr, p3) := pScanIW p2
      if tr.1 = .tRBRACE then .ok (some props, p3)
      else .error (.parseErr (tokstr tr.1 tr.2) ["\x7d"])
  else .ok (none, pUnscan p1)

/-- The label loop of `ScanNodePattern`.  In the source's error the found
string mixes the outer `COLON` token with the inner literal (shadowing);
kept as is. -/
def scanLabelsLoop (fuel : Nat) (labels : List String) (p : PState) :
    Except PError (List String × PState) :=
  match fuel with
  | 0 => .error .fuelOut
  | fuel + 1 =>
    let (tc, p1) := pScanIW p
    if tc.1 = .tCOLON then
      let (ti, p2) := pScanIW p1
      if ti.1 = .tIDENT then scanLabelsLoop fuel (labels ++ [ti.2]) p2
      else .error (.parseErr (tokstr tc.1 ti.2) ["Label Identifier"])
    else .ok (labels, pUnscan p1)

/-- `ScanNodePattern`: `none` (with the two `Unscan`s) when the input is
not a node pattern. -/
def scanNodePattern (fuel : Nat) (p : PState) :
    Except PError (Option NodePattern × PState) :=
  let (t1, p1) := pScanIW p
  if t1.1 = .tLPAREN then
    let (t2, p2) := pScanIW p1
    let varValidP : Option String × Bool × PState :=
      if t2.1 = .tIDENT then (some t2.2, true, p2) else (none, false, pUnscan p2)
    match scanLabelsLoop fuel [] varValidP.2.2 with
    | .error e => .error e
    | .ok (labels, p3) =>
      match scanProperties fuel p3 with
      | .error e => .error e
      | .ok (props, p4) =>
        let valid := varValidP.2.1 ∨ labels ≠ [] ∨ props.isSome
        let (t5, p5) := pScanIW p4
        if t5.1 = .tRPAREN then
          .ok (some ⟨varValidP.1, labels, props.getD []⟩, p5)
        else if valid then .error (.parseErr (tokstr t5.1 t5.2) [")"])
        else .ok (none, pUnscan (pUnscan p5))
  else .ok (none, pUnscan p1)

def goTrimPrefix (s pre : String) : String :=
  if pre.toList.isPrefixOf s.toList then (s.toList.drop pre.toList.length).asString
  else s

def goTrimSuffix (s suf : String) : String :=
  if suf.toList.isSuffixOf s.toList then
    (s.toList.take (s.toList.length - suf.toList.length)).asString
  else s

/-- `strings.Split(s, "..")`: split around each non-overlapping `..`,
left to right. -/
def splitDotsAux (acc : List Char) : List Char → List String
  | [] => [acc.asString]
  | '.' :: '.' :: rest => acc.asString :: splitDotsAux [] rest
  | c :: rest => splitDotsAux (acc ++ [c]) rest

def splitOnDotDot (s : String) : List String :=
  splitDotsAux [] s.toList

/-- `parseRelRange`: strip `[*` and `]`, split on `..`, `Atoi` each side
(`Atoi` errors are discarded, yielding 0).  The `len(parts) == 0` branch is
dead (`strings.Split` never returns an empty slice); there `new(int)` makes
both hops 0. -/
def parseRelRange (ep : EdgePattern) (lit : String) : EdgePattern :=
  let rangeStr := goTrimSuffix (goTrimPrefix lit "[*") "]"
  match splitOnDotDot rangeStr with
  | [] => { ep with minHops := some 0, maxHops := some 0 }
  | p0 :: restParts =>
    let ep1 := if p0 ≠ "" then { ep with minHops := some ((goAtoi p0).getD 0) } else ep
    match restParts with
    | [] => ep1
    | p1 :: _ =>
      if p1 ≠ "" then { ep1 with maxHops := some ((goAtoi p1).getD 0) } else ep1

/-- `parseEdgeDetails`: the bracket body.  Note the closing `]` is consumed
here, yet `ScanEdgePattern`'s `LBRACKET` arm demands a second one — plain
`-[...]->` edges cannot parse in this draft (the `[*` route via `REL_RANGE`
bypasses this). -/
def parseEdgeDetails (fuel : Nat) (ep : EdgePattern) (p : PState) :
    Except PError (EdgePattern × PState) :=
  match fuel with
  | 0 => .error .fuelOut
  | fuel + 1 =>
    let (t, p1) := pScanIW p
    match t.1 with
    | .tIDENT => parseEdgeDetails fuel { ep with var := some t.2 } p1
    | .tCOLON =>
      let (ti, p2) := pScanIW p1
      if ti.1 = .tIDENT then
        parseEdgeDetails fuel { ep with relTypes := ep.relTypes ++ [ti.2] } p2
      else .error (.parseErr (tokstr ti.1 ti.2) ["relationship type"])
    | .tMUL => parseEdgeDetails fuel (parseRelRange ep t.2) p1
    | .tLBRACE =>
      (match scanProperties fuel (pUnscan p1) with
       | .error e => .error e
       | .ok (props, p2) =>
         parseEdgeDetails fuel { ep with properties := props.getD [] } p2)
    | .tRBRACKET => .ok (ep, p1)
    | _ => .error (.parseErr (tokstr t.1 t.2) ["identifier", "*", "\x7d"])

/-- `ScanEdgePattern`.  The `LT` case body is empty in the source: a lone
`<` is consumed and yields the zero pattern with `EdgeUndefined`. -/
def scanEdgePattern (fuel : Nat) (p : PState) :
    Except PError (Option EdgePattern × PState) :=
  let (t1, p1) := pScanIW p
  match t1.1 with
  | .tSUB =>
    let (t2, p2) := pScanIW p1
    match t2.1 with
    | .tGT => .ok (some { zeroEdgePattern with direction := .edgeRight }, p2)
    | .tREL_RANGE =>
      let ep1 := parseRelRange zeroEdgePattern t2.2
      let (t3, p3) := pScanIW p2
      if t3.1 = .tEDGE_RIGHT then
        .ok (some { ep1 with direction := .edgeRight }, p3)
      else .error (.parseErr (tokstr t3.1 t3.2) ["->"])
    | .tLBRACKET =>
      (match parseEdgeDetails fuel { zeroEdgePattern with direction := .edgeRight }
          (pUnscan p2) with
       | .error e => .error e
       | .ok (ep1, p3) =>
         let (t4, p4) := pScanIW p3
         if t4.1 = .tRBRACKET then
           let (t5, p5) := pScanIW p4
           if t5.1 = .tSUB then
             let (t6, p6) := pScanIW p5
             if t6.1 = .tGT then .ok (some ep1, p6)
             else .error (.parseErr (tokstr t6.1 t6.2) [">"])
           else .error (.parseErr (tokstr t5.1 t5.2) ["-"])
         else .error (.parseErr (tokstr t4.1 t4.2) ["]"]))
    | _ => .error (.parseErr (tokstr t2.1 t2.2) [">", "[*"])
  | .tLT => .ok (some zeroEdgePattern, p1)
  | _ => .ok (none, pUnscan p1)

/-- The edge-node loop of `ScanPatternElements`. -/
def scanElemsLoop (fuel : Nat) (elems : List PatternElement) (p : PState) :
    Except PError (List PatternElement × PState) :=
  match fuel with
  | 0 => .error .fuelOut
  | fuel + 1 =>
    match scanEdgePattern fuel p with
    | .error e => .error e
    | .ok (none, p1) => .ok (elems, p1)
    | .ok (some ep, p1) =>
      match scanNodePattern fuel p1 with
      | .error e => .error e
      | .ok (none, _) => .error (.msgErr "expected node after relationship")
      | .ok (some n2, p2) => scanElemsLoop fuel (elems ++ [.edge ep, .node n2]) p2

/-- `ScanPatternElements` (a leading non-node, error or nil alike, becomes
the single "expected node pattern" error). -/
def scanPatternElements (fuel : Nat) (p : PState) :
    Except PError (List PatternElement × PState) :=
  match scanNodePattern fuel p with
  | .error _ => .error (.msgErr "expected node pattern")
  | .ok (none, _) => .error (.msgErr "expected node pattern")
  | .ok (some n, p1) => scanElemsLoop fuel [.node n] p1

/-- `ScanMatchPattern`. -/
def scanMatchPattern (fuel : Nat) (p : PState) :
    Except PError (MatchPattern × PState) :=
  let (t1, p1) := pScanIW p
  if t1.1 = .tIDENT then
    let (t2, p2) := pScanIW p1
    if t2.1 = .tEQ then
      match scanPatternElements fuel p2 with
      | .error e => .error e
      | .ok (elems, p3) => .ok (⟨some t1.2, elems⟩, p3)
    else .error (.parseErr (tokstr t2.1 t2.2) ["="])
  else
    match scanPatternElements fuel (pUnscan p1) with
    | .error e => .error e
    | .ok (elems, p3) => .ok (⟨none, elems⟩, p3)

/-- The comma loop over match patterns in `ScanReadingClause`. -/
def scanMPList (fuel : Nat) (pats : List MatchPattern) (p : PState) :
    Except PError (List MatchPattern × PState) :=
  match fuel with
  | 0 => .error .fuelOut
  | fuel + 1 =>
    match scanMatchPattern fuel p with
    | .error e => .error e
    | .ok (mp, p1) =>
      let (tc, p2) := pScanIW p1
      if tc.1 = .tCOMMA then scanMPList fuel (pats ++ [mp]) p2
      else .ok (pats ++ [mp], pUnscan p2)

/-- `ScanReadingClause`. -/
def scanReadingClause (fuel : Nat) (p : PState) :
    Except PError (ReadingClause × PState) :=
  let (t1, p1) := pScanIW p
  let optP : Bool × PState :=
    if t1.1 = .tOPTIONAL then (true, p1) else (false, pUnscan p1)
  let (t2, p2) := pScanIW optP.2
  if t2.1 = .tMATCH then
    match scanMPList fuel [] p2 with
    | .error e => .error e
    | .ok (pats, p3) =>
      let (t4, p4) := pScanIW p3
      if t4.1 = .tWHERE then
        match scanExpression p4 with
        | .error e => .error e
        | .ok (ex, p5) => .ok (⟨optP.1, pats, some ex⟩, p5)
      else .ok (⟨optP.1, pats, none⟩, pUnscan p4)
  else .error (.parseErr (tokstr t2.1 t2.2) ["MATCH"])

/-- The reading-clause loop of `ParseSingleQuery`. -/
def readingLoop (fuel : Nat) (rcs : List ReadingClause) (p : PState) :
    Except PError (List ReadingClause × PState) :=
  match fuel with
  | 0 => .error .fuelOut
  | fuel + 1 =>
    let (t, p1) := pScanIW p
    if t.1 = .tMATCH ∨ t.1 = .tOPTIONAL then
      match scanReadingClause fuel (pUnscan p1) with
      | .error e => .error e
      | .ok (rc, p2) => readingLoop fuel (rcs ++ [rc]) p2
    else .ok (rcs, pUnscan p1)

/-- The return-item loop of `ParseSingleQuery`. -/
def returnItemsLoop (fuel : Nat) (items : List Expr) (p : PState) :
    Except PError (List Expr × PState) :=
  match fuel with
  | 0 => .error .fuelOut
  | fuel + 1 =>
    match scanExpression p with
    | .error e => .error e
    | .ok (ex, p1) =>
      let (tc, p2) := pScanIW p1
      if tc.1 = .tCOMMA then returnItemsLoop fuel (items ++ [ex]) p2
      else .ok (items ++ [ex], pUnscan p2)

/-- The ORDER BY item loop. -/
def orderLoop (fuel : Nat) (ords : List OrderBy) (p : PState) :
    Except PError (List OrderBy × PState) :=
  match fuel with
  | 0 => .error .fuelOut
  | fuel + 1 =>
    match scanExpression p with
    | .error e => .error e
    | .ok (ex, p1) =>
      let (td, p2) := pScanIW p1
      let dirP : OrderDirection × PState :=
        if td.1 = .tDESC ∨ td.1 = .tDESCENDING then (.descending, p2)
        else if td.1 = .tASC ∨ td.1 = .tASCENDING then (.ascending, p2)
        else (.ascending, pUnscan p2)
      let (tc, p3) := pScanIW dirP.2
      if tc.1 = .tCOMMA then orderLoop fuel (ords ++ [⟨dirP.1, ex⟩]) p3
      else .ok (ords ++ [⟨dirP.1, ex⟩], pUnscan p3)

/-- `ParseSingleQuery`. -/
def parseSingleQuery (fuel : Nat) (p : PState) :
    Except PError (SingleQuery × PState) :=
  match readingLoop fuel [] p with
  | .error e => .error e
  | .ok (rcs, p1) =>
    let (tr, p2) := pScanIW p1
    if tr.1 = .tRETURN then
      let (td, p3) := pScanIW p2
      let distP : Bool × PState :=
        if td.1 = .tDISTINCT then (true, p3) else (false, pUnscan p3)
      match returnItemsLoop fuel [] distP.2 with
      | .error e => .error e
      | .ok (items, p4) =>
        let (to1, p5) := pScanIW p4
        match (if to1.1 = .tORDER then
            (let (tb, p6) := pScanIW p5
             if tb.1 = .tBY then orderLoop fuel [] p6
             else .error (.parseErr (tokstr tb.1 tb.2) ["BY"]))
          else .ok ([], pUnscan p5) :
            Except PError (List OrderBy × PState)) with
        | .error e => .error e
        | .ok (ords, p7) =>
          let (ts, p8) := pScanIW p7
          match (if ts.1 = .tSKIP then
              (match scanExpression p8 with
               | .error e => .error e
               | .ok (ex, p9) => .ok (some ex, p9))
            else .ok (none, pUnscan p8) :
              Except PError (Option Expr × PState)) with
          | .error e => .error e
          | .ok (skipE, p10) =>
            let (tli, p11) := pScanIW p10
            match (if tli.1 = .tLIMIT then
                (match scanExpression p11 with
                 | .error e => .error e
                 | .ok (ex, p12) => .ok (some ex, p12))
              else .ok (none, pUnscan p11) :
                Except PError (Option Expr × PState)) with
            | .error e => .error e
            | .ok (limitE, p13) =>
              .ok (⟨rcs, distP.1, items, ords, skipE, limitE⟩, p13)
    else .error (.parseErr (tokstr tr.1 tr.2) ["RETURN"])

/-- `ParseQuery`: skip leading semicolons, `none` at `EOF`, else one
`ParseSingleQuery`. -/
def parseQuery (fuel : Nat) (p : PState) : Except PError (Option SingleQuery) :=
  match fuel with
  | 0 => .error .fuelOut
  | fuel + 1 =>
    let (t, p1) := pScanIW p
    if t.1 = .tEOF then .ok none
    else if t.1 = .tSEMICOLON then parseQuery fuel p1
    else
      match parseSingleQuery fuel (pUnscan p1) with
      | .error e => .error e
      | .ok (sq, _) => .ok (some sq)

/-- `NewParser(strings.NewReader(input))` followed by `ParseQuery`. -/
def parseCypher (fuel : Nat) (input : String) : Except PError (Option SingleQuery) :=
  match tokenize fuel (foldCRLF input.toList) with
  | none => .error .fuelOut
  | some ts => parseQuery fuel ⟨ts, 0⟩

def c10Input : String := "MATCH (a \x7bk: \x27v\x27\x7d)-[*1..3]->(b) RETURN a, b;"

/-! ## Theorems -/

theorem alookup_aerase {α β : Type} [DecidableEq α] (l : List (α × β)) (k k' : α) :
    alookup (aerase l k) k' = if k' = k then none else alookup l k' := by
  induction l with
  | nil => simp [aerase, alookup]
  | cons p rest ih =>
    obtain ⟨a, b⟩ := p
    by_cases hak : a = k
    · subst hak
      by_cases hk' : k' = a
      · subst hk'
        simp [aerase, alookup, ih]
      · simp [aerase, alookup, hk', ih]
    · by_cases hk' : k' = a
      · subst hk'
        simp [aerase, alookup, hak]
      · simp [aerase, alookup, hak, hk', ih]

theorem alookup_ainsert {α β : Type} [DecidableEq α] (l : List (α × β)) (k k' : α)
    (v : β) :
    alookup (ainsert l k v) k' = if k' = k then some v else alookup l k' := by
  by_cases h : k' = k <;> simp [ainsert, alookup, h, alookup_aerase]

theorem alookup_isSome_iff_mem_akeys {α β : Type} [DecidableEq α] (l : List (α × β))
    (k : α) : (alookup l k).isSome = true ↔ k ∈ akeys l := by
  induction l with
  | nil => simp [alookup, akeys]
  | cons p rest ih =>
    obtain ⟨a, b⟩ := p
    by_cases h : k = a
    · simp [alookup, akeys, h]
    · simp [alookup, akeys, h, ih]

theorem mem_akeys_aerase {α β : Type} [DecidableEq α] (l : List (α × β)) (k k' : α)
    (h : k' ∈ akeys (aerase l k)) : k' ∈ akeys l ∧ k' ≠ k := by
  rw [← alookup_isSome_iff_mem_akeys] at h
  rw [alookup_aerase] at h
  by_cases hk : k' = k
  · simp [hk] at h
  · rw [if_neg hk] at h
    exact ⟨(alookup_isSome_iff_mem_akeys _ _).mp h, hk⟩

theorem mem_akeys_ainsert {α β : Type} [DecidableEq α] (l : List (α × β)) (k k' : α)
    (v : β) (h : k' ∈ akeys (ainsert l k v)) : k' = k ∨ k' ∈ akeys l := by
  rw [← alookup_isSome_iff_mem_akeys] at h
  rw [alookup_ainsert] at h
  by_cases hk : k' = k
  · exact Or.inl hk
  · rw [if_neg hk] at h
    exact Or.inr ((alookup_isSome_iff_mem_akeys _ _).mp h)

/-- If erasing key `k` empties the list, every other lookup was already
`none` (used for the empty-inner-map cleanup in `RemoveNode`/`RemoveEdge`). -/
theorem alookup_eq_none_of_aerase_eq_nil {α β : Type} [DecidableEq α] (l : List (α × β))
    (k k' : α) (h : aerase l k = []) (hne : k' ≠ k) :
    alookup l k' = none := by
  induction l with
  | nil => rfl
  | cons p rest ih =>
    obtain ⟨a, b⟩ := p
    by_cases hak : a = k
    · subst hak
      simp [aerase] at h
      have hk'a : ¬(k' = a) := fun hh => hne (hh ▸ rfl)
      simp [alookup, hk'a]
      exact ih h
    · simp [aerase, hak] at h

/-! ## Property values and Go primitives -/

theorem getOutAddr_eq_lookup2 (g : Store) (f t : String) :
    getOutAddr g f t = lookup2 g.out f t := rfl

theorem getInAddr_eq_lookup2 (g : Store) (t f : String) :
    getInAddr g t f = lookup2 g.inn t f := rfl

theorem alookup_getD_nil {β : Type} (o : Option (List (String × β)))
    (k : String) : alookup (o.getD []) k = o.bind (fun m => alookup m k) := by
  cases o <;> simp [alookup]

theorem wf_new : Wf Store.new := by
  refine ⟨fun f t => rfl, ?_, ?_, ?_, ?_⟩ <;>
    first
      | exact fun k h => by simp [Store.new, akeys] at h
      | exact fun k m h => by simp [Store.new, alookup] at h

theorem lookup2_eraseInnerAt (outer : List (String × List (String × Nat)))
    (okey ikey k k' : String) :
    lookup2 (eraseInnerAt outer okey ikey) k k' =
      if k = okey ∧ k' = ikey then none else lookup2 outer k k' := by
  unfold eraseInnerAt
  cases h : alookup outer okey with
  | none =>
    by_cases hk : k = okey
    · subst hk
      simp [lookup2, h]
    · simp [hk]
  | some m =>
    by_cases hm : aerase m ikey = []
    · simp only [hm, if_pos rfl, reduceIte]
      by_cases hk : k = okey
      · subst hk
        simp only [lookup2, alookup_aerase, if_pos rfl, h, Option.bind_none,
          Option.bind_some]
        by_cases hk' : k' = ikey
        · simp [hk']
        · simp [hk', alookup_eq_none_of_aerase_eq_nil m ikey k' hm hk']
      · simp [lookup2, alookup_aerase, hk]
    · simp only [hm, reduceIte]
      by_cases hk : k = okey
      · subst hk
        simp only [lookup2, alookup_ainsert, if_pos rfl, h, Option.bind_some,
          alookup_aerase]
        by_cases hk' : k' = ikey <;> simp [hk', alookup_aerase]
      · simp [lookup2, alookup_ainsert, hk, alookup_aerase]

theorem alookup_eraseInnerAt_isSome (outer : List (String × List (String × Nat)))
    (okey ikey k : String)
    (h : (alookup (eraseInnerAt outer okey ikey) k).isSome = true) :
    (alookup outer k).isSome = true := by
  unfold eraseInnerAt at h
  cases ho : alookup outer okey with
  | none => rwa [ho] at h
  | some m =>
    rw [ho] at h
    by_cases hm : aerase m ikey = []
    · simp only [hm, if_pos rfl, reduceIte] at h
      rw [alookup_aerase] at h
      by_cases hk : k = okey
      · simp [hk] at h
      · rwa [if_neg hk] at h
    · simp only [hm, reduceIte] at h
      rw [alookup_ainsert] at h
      by_cases hk : k = okey
      · simp [hk, ho]
      · rwa [if_neg hk] at h

theorem lookup2_foldl_eraseInner (l : List (String × Nat))
    (init : List (String × List (String × Nat))) (id k k' : String) :
    lookup2 (l.foldl (fun acc p => eraseInnerAt acc p.1 id) init) k k' =
      if k' = id ∧ k ∈ akeys l then none else lookup2 init k k' := by
  induction l generalizing init with
  | nil => simp [akeys]
  | cons p rest ih =>
    simp only [List.foldl_cons]
    rw [ih, lookup2_eraseInnerAt]
    by_cases h1 : k' = id
    · by_cases h2 : k = p.1 <;> by_cases h3 : k ∈ List.map Prod.fst rest <;>
        simp [akeys, h1, h2, h3]
    · simp [h1]

theorem alookup_foldl_eraseInner_isSome (l : List (String × Nat))
    (init : List (String × List (String × Nat))) (id k : String)
    (h : (alookup (l.foldl (fun acc p => eraseInnerAt acc p.1 id) init) k).isSome
      = true) :
    (alookup init k).isSome = true := by
  induction l generalizing init with
  | nil => exact h
  | cons p rest ih =>
    simp only [List.foldl_cons] at h
    exact alookup_eraseInnerAt_isSome _ _ _ _ (ih _ h)

theorem mem_akeys_eraseInnerAt (outer : List (String × List (String × Nat)))
    (okey ikey k : String) (h : k ∈ akeys (eraseInnerAt outer okey ikey)) :
    k ∈ akeys outer := by
  rw [← alookup_isSome_iff_mem_akeys] at h ⊢
  exact alookup_eraseInnerAt_isSome _ _ _ _ h

theorem mem_akeys_foldl_eraseInner (l : List (String × Nat))
    (init : List (String × List (String × Nat))) (id k : String)
    (h : k ∈ akeys (l.foldl (fun acc p => eraseInnerAt acc p.1 id) init)) :
    k ∈ akeys init := by
  rw [← alookup_isSome_iff_mem_akeys] at h ⊢
  exact alookup_foldl_eraseInner_isSome _ _ _ _ h

theorem lookup2_isSome_elim (idx : List (String × List (String × Nat)))
    (k k' : String) (h : (lookup2 idx k k').isSome = true) :
    ∃ m, alookup idx k = some m ∧ k' ∈ akeys m := by
  unfold lookup2 at h
  cases hh : alookup idx k with
  | none => rw [hh] at h; simp at h
  | some m =>
    rw [hh] at h
    exact ⟨m, rfl, (alookup_isSome_iff_mem_akeys _ _).mp (by simpa using h)⟩

theorem lookup2_isSome_intro (idx : List (String × List (String × Nat)))
    (k k' : String) (m : List (String × Nat)) (hm : alookup idx k = some m)
    (h : k' ∈ akeys m) : (lookup2 idx k k').isSome = true := by
  unfold lookup2
  rw [hm]
  simpa using (alookup_isSome_iff_mem_akeys m k').mpr h

theorem lookup2_aerase_outer (idx : List (String × List (String × Nat)))
    (id k k' : String) :
    lookup2 (aerase idx id) k k' = if k = id then none else lookup2 idx k k' := by
  unfold lookup2
  rw [alookup_aerase]
  by_cases hk : k = id <;> simp [hk]

/-- `Wf` only depends on the node table and the two indices. -/
theorem wf_of_fields (g g' : Store) (hout : g'.out = g.out)
    (hinn : g'.inn = g.inn) (hn : g'.nodes = g.nodes) (h : Wf g) : Wf g' := by
  obtain ⟨hl, ho1, hi1, ho2, hi2⟩ := h
  refine ⟨fun f t => ?_, ?_, ?_, ?_, ?_⟩
  · have hlft := hl f t
    rw [getOutAddr_eq_lookup2, getInAddr_eq_lookup2] at hlft
    rw [getOutAddr_eq_lookup2, getInAddr_eq_lookup2, hout, hinn]
    exact hlft
  · rw [hout, hn]; exact ho1
  · rw [hout, hn]; exact hi1
  · rw [hinn, hn]; exact ho2
  · rw [hinn, hn]; exact hi2

theorem wf_addNode (g : Store) (id : String)
    (props : Option (List (String × PropVal))) (h : Wf g) :
    Wf (addNode g id props).2 := by
  unfold addNode
  by_cases h1 : id = ""
  · simpa [h1] using h
  by_cases h2 : (alookup g.nodes id).isSome
  · simpa [h1, h2] using h
  simp only [h1, h2, reduceIte, Bool.false_eq_true]
  obtain ⟨hl, ho1, hi1, ho2, hi2⟩ := h
  have hmono : ∀ k, (alookup g.nodes k).isSome = true →
      (alookup (ainsert g.nodes id g.nextAddr) k).isSome = true := by
    intro k hk
    rw [alookup_ainsert]
    by_cases hkid : k = id <;> simp [hkid, hk]
  exact ⟨hl, fun k hk => hmono k (ho1 k hk),
    fun k m hm k' hk' => hmono k' (hi1 k m hm k' hk'),
    fun k hk => hmono k (ho2 k hk),
    fun k m hm k' hk' => hmono k' (hi2 k m hm k' hk')⟩

theorem addEdgeToIndex_nodes (g : Store) (f t : String) (a : Nat) :
    (addEdgeToIndex g f t a).nodes = g.nodes := rfl

theorem lookup2_addEdgeToIndex_out (g : Store) (f t : String) (a : Nat)
    (f' t' : String) :
    lookup2 (addEdgeToIndex g f t a).out f' t' =
      if f' = f ∧ t' = t then some a else lookup2 g.out f' t' := by
  unfold addEdgeToIndex lookup2
  rw [alookup_ainsert]
  by_cases hf : f' = f
  · subst hf
    simp only [reduceIte, if_true, Option.some_bind']
    rw [alookup_ainsert]
    by_cases ht : t' = t
    · simp [ht]
    · simp only [ht, and_false, reduceIte, if_neg ht]
      cases hh : alookup g.out f' <;> simp [hh, alookup]
  · simp [hf]

theorem lookup2_addEdgeToIndex_inn (g : Store) (f t : String) (a : Nat)
    (t' f' : String) :
    lookup2 (addEdgeToIndex g f t a).inn t' f' =
      if t' = t ∧ f' = f then some a else lookup2 g.inn t' f' := by
  unfold addEdgeToIndex lookup2
  rw [alookup_ainsert]
  by_cases ht : t' = t
  · subst ht
    simp only [reduceIte, if_true, Option.some_bind']
    rw [alookup_ainsert]
    by_cases hf : f' = f
    · simp [hf]
    · simp only [hf, and_false, reduceIte, if_neg hf]
      cases hh : alookup g.inn t' <;> simp [hh, alookup]
  · simp [ht]

/-- Linking one edge through `addEdgeToIndex` preserves the invariant when
both endpoints are registered nodes. -/
theorem wf_addEdgeToIndex (g : Store) (f t : String) (a : Nat)
    (hf : (alookup g.nodes f).isSome = true)
    (ht : (alookup g.nodes t).isSome = true) (h : Wf g) :
    Wf (addEdgeToIndex g f t a) := by
  obtain ⟨hl, ho1, hi1, ho2, hi2⟩ := h
  refine ⟨fun f' t' => ?_, fun k hk => ?_, fun k m hm k' hk' => ?_,
    fun k hk => ?_, fun k m hm k' hk' => ?_⟩
  · have hlft := hl f' t'
    rw [getOutAddr_eq_lookup2, getInAddr_eq_lookup2] at hlft
    rw [getOutAddr_eq_lookup2, getInAddr_eq_lookup2,
      lookup2_addEdgeToIndex_out, lookup2_addEdgeToIndex_inn]
    by_cases hff : f' = f
    · subst hff
      by_cases htt : t' = t
      · subst htt
        simp
      · simp [htt, hlft]
    · simp [hff, hlft]
  · rw [addEdgeToIndex_nodes]
    rcases mem_akeys_ainsert _ _ _ _ (by simpa [addEdgeToIndex] using hk)
      with hkf | hold
    · exact hkf ▸ hf
    · exact ho1 k hold
  · rw [addEdgeToIndex_nodes]
    have hsome : (lookup2 (addEdgeToIndex g f t a).out k k').isSome
        = true := lookup2_isSome_intro _ _ _ m hm hk'
    rw [lookup2_addEdgeToIndex_out] at hsome
    by_cases hcond : k = f ∧ k' = t
    · exact hcond.2 ▸ ht
    · rw [if_neg hcond] at hsome
      obtain ⟨m0, hm0, hk0⟩ := lookup2_isSome_elim _ _ _ hsome
      exact hi1 k m0 hm0 k' hk0
  · rw [addEdgeToIndex_nodes]
    rcases mem_akeys_ainsert _ _ _ _ (by simpa [addEdgeToIndex] using hk)
      with hkt | hold
    · exact hkt ▸ ht
    · exact ho2 k hold
  · rw [addEdgeToIndex_nodes]
    have hsome : (lookup2 (addEdgeToIndex g f t a).inn k k').isSome
        = true := lookup2_isSome_intro _ _ _ m hm hk'
    rw [lookup2_addEdgeToIndex_inn] at hsome
    by_cases hcond : k = t ∧ k' = f
    · exact hcond.2 ▸ hf
    · rw [if_neg hcond] at hsome
      obtain ⟨m0, hm0, hk0⟩ := lookup2_isSome_elim _ _ _ hsome
      exact hi2 k m0 hm0 k' hk0

theorem wf_addEdge (g : Store) (f t : String) (w : Rat) (h : Wf g) :
    Wf (addEdge g f t w).2 := by
  unfold addEdge
  by_cases h1 : f = "" ∨ t = ""
  · simpa [h1] using h
  by_cases h2 : (alookup g.nodes f).isNone
  · simpa [h1, h2] using h
  by_cases h3 : (alookup g.nodes t).isNone
  · simpa [h1, h2, h3] using h
  by_cases h4 : (getOutAddr g f t).isSome
  · simpa [h1, h2, h3, h4] using h
  simp only [h1, h2, h3, h4, reduceIte, Bool.false_eq_true]
  have hf : (alookup g.nodes f).isSome = true := by
    cases hh : alookup g.nodes f
    · rw [hh] at h2; simp at h2
    · simp
  have ht : (alookup g.nodes t).isSome = true := by
    cases hh : alookup g.nodes t
    · rw [hh] at h3; simp at h3
    · simp
  exact wf_addEdgeToIndex _ f t _ hf ht (wf_of_fields g _ rfl rfl rfl h)

theorem wf_updateEdge (g : Store) (f t : String) (w : Rat) (h : Wf g) :
    Wf (updateEdge g f t w).2 := by
  unfold updateEdge
  cases hga : getOutAddr g f t with
  | none => exact h
  | some a =>
    dsimp only
    cases he : alookup g.edgeHeap a with
    | none => exact h
    | some e => exact wf_of_fields g _ rfl rfl rfl h

theorem wf_removeEdge (g : Store) (f t : String) (h : Wf g) :
    Wf (removeEdge g f t).2 := by
  unfold removeEdge
  by_cases h1 : (getOutAddr g f t).isNone
  · simpa [h1] using h
  simp only [h1, Bool.false_eq_true, reduceIte]
  obtain ⟨hl, ho1, hi1, ho2, hi2⟩ := h
  refine ⟨fun f' t' => ?_, fun k hk => ?_, fun k m hm k' hk' => ?_,
    fun k hk => ?_, fun k m hm k' hk' => ?_⟩
  · have hlft := hl f' t'
    rw [getOutAddr_eq_lookup2, getInAddr_eq_lookup2] at hlft
    rw [getOutAddr_eq_lookup2, getInAddr_eq_lookup2]
    show lookup2 (eraseInnerAt g.out f t) f' t' = lookup2 (eraseInnerAt g.inn t f) t' f'
    rw [lookup2_eraseInnerAt, lookup2_eraseInnerAt]
    by_cases hff : f' = f
    · subst hff
      by_cases htt : t' = t
      · subst htt
        simp
      · simp [htt, hlft]
    · simp [hff, hlft]
  · exact ho1 k (mem_akeys_eraseInnerAt _ _ _ _ hk)
  · have hsome : (lookup2 (eraseInnerAt g.out f t) k k').isSome = true :=
      lookup2_isSome_intro _ _ _ m hm hk'
    rw [lookup2_eraseInnerAt] at hsome
    by_cases hcond : k = f ∧ k' = t
    · simp [hcond] at hsome
    · rw [if_neg hcond] at hsome
      obtain ⟨m0, hm0, hk0⟩ := lookup2_isSome_elim _ _ _ hsome
      exact hi1 k m0 hm0 k' hk0
  · exact ho2 k (mem_akeys_eraseInnerAt _ _ _ _ hk)
  · have hsome : (lookup2 (eraseInnerAt g.inn t f) k k').isSome = true :=
      lookup2_isSome_intro _ _ _ m hm hk'
    rw [lookup2_eraseInnerAt] at hsome
    by_cases hcond : k = t ∧ k' = f
    · simp [hcond] at hsome
    · rw [if_neg hcond] at hsome
      obtain ⟨m0, hm0, hk0⟩ := lookup2_isSome_elim _ _ _ hsome
      exact hi2 k m0 hm0 k' hk0

theorem wf_removeNode (g : Store) (id : String) (h : Wf g) :
    Wf (removeNode g id).2 := by
  unfold removeNode
  by_cases h1 : (alookup g.nodes id).isNone
  · simpa [h1] using h
  simp only [h1, Bool.false_eq_true, reduceIte]
  obtain ⟨hl, ho1, hi1, ho2, hi2⟩ := h
  have hl2 : ∀ f t, lookup2 g.out f t = lookup2 g.inn t f := by
    intro f t
    have hlft := hl f t
    rwa [getOutAddr_eq_lookup2, getInAddr_eq_lookup2] at hlft
  set outAdj : List (String × Nat) := (alookup g.out id).getD [] with hOutAdj
  set inn1 : List (String × List (String × Nat)) :=
    List.foldl (fun acc p => eraseInnerAt acc p.1 id) g.inn outAdj with hInn1
  set out1 : List (String × List (String × Nat)) := aerase g.out id with hOut1
  set inAdj : List (String × Nat) := (alookup inn1 id).getD [] with hInAdj
  set out2 : List (String × List (String × Nat)) :=
    List.foldl (fun acc p => eraseInnerAt acc p.1 id) out1 inAdj with hOut2
  set inn2 : List (String × List (String × Nat)) := aerase inn1 id with hInn2
  have hInn1L : ∀ t f, lookup2 inn1 t f =
      if f = id then none else lookup2 g.inn t f := by
    intro t f
    rw [hInn1, lookup2_foldl_eraseInner]
    by_cases hf : f = id
    · rw [hf, if_pos rfl]
      by_cases hmem : t ∈ akeys outAdj
      · rw [if_pos ⟨rfl, hmem⟩]
      · rw [if_neg (fun hc => hmem hc.2)]
        have ha : alookup outAdj t = none := by
          cases hh : alookup outAdj t with
          | none => rfl
          | some x =>
            exact absurd ((alookup_isSome_iff_mem_akeys _ _).mp (by simp [hh]))
              hmem
        have hb : lookup2 g.out id t = none := by
          have hgd := alookup_getD_nil (alookup g.out id) t
          rw [← hOutAdj] at hgd
          show (alookup g.out id).bind (fun m => alookup m t) = none
          rw [← hgd]
          exact ha
        rw [← hl2 id t]
        exact hb
    · simp [hf]
  have hOut1L : ∀ f t, lookup2 out1 f t =
      if f = id then none else lookup2 g.out f t := by
    intro f t
    rw [hOut1, lookup2_aerase_outer]
  have hInAdjL : ∀ f, alookup inAdj f =
      if f = id then none else lookup2 g.inn id f := by
    intro f
    have := alookup_getD_nil (alookup inn1 id) f
    rw [← hInAdj] at this
    rw [this]
    exact hInn1L id f
  have hOut2L : ∀ f t, lookup2 out2 f t =
      if f = id ∨ t = id then none else lookup2 g.out f t := by
    intro f t
    rw [hOut2, lookup2_foldl_eraseInner]
    by_cases hf : f = id
    · have hnone := hOut1L f t
      rw [if_pos hf] at hnone
      rw [if_pos (Or.inl hf), hnone, ite_self]
    · by_cases ht : t = id
      · rw [ht, if_pos (Or.inr rfl)]
        by_cases hmem : f ∈ akeys inAdj
        · rw [if_pos ⟨rfl, hmem⟩]
        · rw [if_neg (fun hc => hmem hc.2)]
          have ha : alookup inAdj f = none := by
            cases hh : alookup inAdj f with
            | none => rfl
            | some x =>
              exact absurd ((alookup_isSome_iff_mem_akeys _ _).mp (by simp [hh]))
                hmem
          rw [hInAdjL f, if_neg hf] at ha
          have hb := hOut1L f id
          rw [if_neg hf] at hb
          rw [hb, hl2 f id]
          exact ha
      · rw [if_neg (fun hc => ht hc.1), if_neg (fun hc => hc.elim hf ht)]
        have hb := hOut1L f t
        rwa [if_neg hf] at hb
  have hInn2L : ∀ t f, lookup2 inn2 t f =
      if t = id ∨ f = id then none else lookup2 g.inn t f := by
    intro t f
    rw [hInn2, lookup2_aerase_outer]
    by_cases ht : t = id
    · simp [ht]
    · by_cases hf : f = id <;> simp [ht, hf, hInn1L]
  have hnodesL : ∀ k, (alookup (aerase g.nodes id) k).isSome = true ↔
      ((alookup g.nodes k).isSome = true ∧ k ≠ id) := by
    intro k
    rw [alookup_aerase]
    by_cases hk : k = id <;> simp [hk]
  refine ⟨fun f t => ?_, fun k hk => ?_, fun k m hm k' hk' => ?_,
    fun k hk => ?_, fun k m hm k' hk' => ?_⟩
  · rw [getOutAddr_eq_lookup2, getInAddr_eq_lookup2]
    show lookup2 out2 f t = lookup2 inn2 t f
    rw [hOut2L, hInn2L]
    by_cases hf : f = id
    · simp [hf]
    · by_cases ht : t = id <;> simp [hf, ht, hl2]
  · show (alookup (aerase g.nodes id) k).isSome = true
    have hk1 : k ∈ akeys out1 := mem_akeys_foldl_eraseInner inAdj out1 id k hk
    rw [hOut1] at hk1
    obtain ⟨hk2, hkne⟩ := mem_akeys_aerase g.out id k hk1
    exact (hnodesL k).mpr ⟨ho1 k hk2, hkne⟩
  · show (alookup (aerase g.nodes id) k').isSome = true
    have hsome : (lookup2 out2 k k').isSome = true :=
      lookup2_isSome_intro _ _ _ m hm hk'
    rw [hOut2L] at hsome
    by_cases hcond : k = id ∨ k' = id
    · rw [if_pos hcond] at hsome
      simp at hsome
    · rw [if_neg hcond] at hsome
      push_neg at hcond
      obtain ⟨m0, hm0, hk0⟩ := lookup2_isSome_elim _ _ _ hsome
      exact (hnodesL k').mpr ⟨hi1 k m0 hm0 k' hk0, hcond.2⟩
  · show (alookup (aerase g.nodes id) k).isSome = true
    have hk1 : k ∈ akeys inn1 ∧ k ≠ id := by
      rw [hInn2] at hk
      exact mem_akeys_aerase inn1 id k hk
    have hk2 : k ∈ akeys g.inn := by
      have := hk1.1
      rw [hInn1] at this
      exact mem_akeys_foldl_eraseInner outAdj g.inn id k this
    exact (hnodesL k).mpr ⟨ho2 k hk2, hk1.2⟩
  · show (alookup (aerase g.nodes id) k').isSome = true
    have hsome : (lookup2 inn2 k k').isSome = true :=
      lookup2_isSome_intro _ _ _ m hm hk'
    rw [hInn2L] at hsome
    by_cases hcond : k = id ∨ k' = id
    · rw [if_pos hcond] at hsome
      simp at hsome
    · rw [if_neg hcond] at hsome
      push_neg at hcond
      obtain ⟨m0, hm0, hk0⟩ := lookup2_isSome_elim _ _ _ hsome
      exact (hnodesL k').mpr ⟨hi2 k m0 hm0 k' hk0, hcond.2⟩

theorem wf_applyOp (g : Store) (op : Op) (h : Wf g) : Wf (applyOp g op) := by
  cases op with
  | addNode id props => exact wf_addNode g id props h
  | addEdge f t w => exact wf_addEdge g f t w h
  | updateEdge f t w => exact wf_updateEdge g f t w h
  | removeEdge f t => exact wf_removeEdge g f t h
  | removeNode id => exact wf_removeNode g id h

theorem wf_foldl (ops : List Op) (g : Store) (h : Wf g) :
    Wf (ops.foldl applyOp g) := by
  induction ops generalizing g with
  | nil => exact h
  | cons op rest ih => exact ih _ (wf_applyOp g op h)

theorem wf_applyOps (ops : List Op) : Wf (applyOps ops) :=
  wf_foldl ops Store.new wf_new

/-- C2: after every sequence of `AddNode`, `AddEdge`, `UpdateEdge`,
`RemoveEdge` and `RemoveNode` calls starting from `New()`, the two adjacency
indices are in lockstep — the entry `out[from][to]` is present exactly when
`in[to][from]` is present and both hold the same `*Edge` pointer — and every
node id appearing as an outer or inner key of either index is present in the
node table. -/
theorem C2_index_lockstep_and_keys (ops : List Op) :
    (∀ f t, getOutAddr (applyOps ops) f t = getInAddr (applyOps ops) t f)
    ∧ (∀ k, k ∈ akeys (applyOps ops).out → k ∈ akeys (applyOps ops).nodes)
    ∧ (∀ k m, alookup (applyOps ops).out k = some m →
        ∀ k', k' ∈ akeys m → k' ∈ akeys (applyOps ops).nodes)
    ∧ (∀ k, k ∈ akeys (applyOps ops).inn → k ∈ akeys (applyOps ops).nodes)
    ∧ (∀ k m, alookup (applyOps ops).inn k = some m →
        ∀ k', k' ∈ akeys m → k' ∈ akeys (applyOps ops).nodes) := by
  obtain ⟨hl, ho1, hi1, ho2, hi2⟩ := wf_applyOps ops
  refine ⟨hl, ?_, ?_, ?_, ?_⟩
  · intro k hk
    exact (alookup_isSome_iff_mem_akeys _ _).mp (ho1 k hk)
  · intro k m hm k' hk'
    exact (alookup_isSome_iff_mem_akeys _ _).mp (hi1 k m hm k' hk')
  · intro k hk
    exact (alookup_isSome_iff_mem_akeys _ _).mp (ho2 k hk)
  · intro k m hm k' hk'
    exact (alookup_isSome_iff_mem_akeys _ _).mp (hi2 k m hm k' hk')

/-- Concrete instantiation of the C2 theorem on the store
`New(); AddNode("A"); AddNode("B"); AddEdge("A","B",1)`: each key clause is
discharged on the resulting index entries. -/
theorem C2_index_lockstep_and_keys_witness :
    "A" ∈ akeys (applyOps
        [Op.addNode "A" none, Op.addNode "B" none, Op.addEdge "A" "B" 1]).nodes
    ∧ "B" ∈ akeys (applyOps
        [Op.addNode "A" none, Op.addNode "B" none, Op.addEdge "A" "B" 1]).nodes :=
  ⟨(C2_index_lockstep_and_keys
      [Op.addNode "A" none, Op.addNode "B" none, Op.addEdge "A" "B" 1]).2.1
      "A" (by decide),
   (C2_index_lockstep_and_keys
      [Op.addNode "A" none, Op.addNode "B" none, Op.addEdge "A" "B" 1]).2.2.1
      "A" [("B", 2)] (by decide) "B" (by decide)⟩

/-! ## The DFS traversal engine (`pkg/traverse/dfs.go`) -/

theorem mem_reachWithin_succ {g : Store} {dir : Direction} {src x : String}
    {j : Nat} (h : x ∈ reachWithin g dir src j) :
    x ∈ reachWithin g dir src (j + 1) := by
  simp only [reachWithin, List.mem_dedup, List.mem_append]
  exact Or.inl h

theorem mem_reachWithin_mono {g : Store} {dir : Direction} {src x : String}
    {j k : Nat} (hjk : j ≤ k) (h : x ∈ reachWithin g dir src j) :
    x ∈ reachWithin g dir src k := by
  induction k with
  | zero => exact (Nat.le_zero.mp hjk) ▸ h
  | succ k ih =>
    rcases Nat.lt_or_ge j (k + 1) with hl | hg
    · exact mem_reachWithin_succ (ih (Nat.lt_succ_iff.mp hl))
    · exact (Nat.le_antisymm hjk hg) ▸ h

theorem mem_reachWithin_step {g : Store} {dir : Direction} {src x y : String}
    {j : Nat} (hx : x ∈ reachWithin g dir src j)
    (hy : y ∈ neighborIds g dir x) : y ∈ reachWithin g dir src (j + 1) := by
  simp only [reachWithin, List.mem_dedup, List.mem_append, List.mem_flatMap]
  exact Or.inr ⟨x, hx, hy⟩

theorem getNeighbors_map_id (d : DFS) (n : GNode) :
    (getNeighbors d n).map GNode.id = neighborIds d.graph d.direction n.id := by
  unfold getNeighbors neighborIds
  cases d.direction <;> cases hh : getInEdges d.graph n.id <;>
    cases hh2 : getOutEdges d.graph n.id <;>
    simp [hh, hh2, List.map_filterMap]

theorem nextF_spec (g : Store) (dir : Direction) (k : Nat) (root : String) :
    ∀ (fuel : Nat) (d : DFS), DFSInv g dir k root d →
    DFSInv g dir k root (nextF fuel d).2
    ∧ (∀ i ∈ d.visited, i ∈ (nextF fuel d).2.visited)
    ∧ (∀ n, (nextF fuel d).1 = some n →
        n.id ∈ reachWithin g dir root k ∧ n.id ∉ d.visited
        ∧ n.id ∈ (nextF fuel d).2.visited) := by
  intro fuel
  induction fuel with
  | zero =>
    intro d hinv
    exact ⟨hinv, fun i hi => hi, fun n hn => by simp [nextF] at hn⟩
  | succ fuel ih =>
    intro d hinv
    obtain ⟨hg, hdir, hmax, hstack⟩ := hinv
    show DFSInv g dir k root (nextF (fuel + 1) d).2 ∧ _
    cases hst : d.stack with
    | nil =>
      simp only [nextF, hst]
      exact ⟨⟨hg, hdir, hmax, by simp [hst]⟩, fun i hi => hi,
        fun n hn => by simp at hn⟩
    | cons item rest =>
      by_cases hv : item.node.id ∈ d.visited
      · have hrec := ih { d with stack := rest }
          ⟨hg, hdir, hmax, fun it hit => hstack it (by rw [hst]; right; exact hit)⟩
        simp only [nextF, hst, if_pos hv]
        exact hrec
      · have hitem := hstack item (by rw [hst]; exact List.mem_cons_self _ _)
        -- the intermediate states
        set d1 : DFS :=
          { d with stack := rest, visited := item.node.id :: d.visited }
          with hd1
        set d2 : DFS := { d1 with
          inRange := updateInRange d1.rangeFilter d1.inRange item.node }
          with hd2
        set newStack : List StackItem :=
          if d2.maxDepth < 0 ∨ (item.depth : Int) < d2.maxDepth then
            ((getNeighbors d2 item.node).filter
                (fun n => n.id ∉ d2.visited)).map
              (fun n => StackItem.mk n (item.depth + 1)) ++ d2.stack
          else d2.stack
          with hns
        set d3 : DFS := { d2 with stack := newStack } with hd3
        have hinv3 : DFSInv g dir k root d3 := by
          refine ⟨hg, hdir, hmax, ?_⟩
          intro it hit
          rw [hd3] at hit
          simp only at hit
          rw [hns] at hit
          by_cases hexp : d2.maxDepth < 0 ∨ (item.depth : Int) < d2.maxDepth
          · rw [if_pos hexp] at hit
            rcases List.mem_append.mp hit with hnew | hold
            · obtain ⟨n, hn, hn2⟩ := List.mem_map.mp hnew
              have hnid : n.id ∈ neighborIds g dir item.node.id := by
                have hmem : n ∈ getNeighbors d2 item.node :=
                  (List.mem_filter.mp hn).1
                have := getNeighbors_map_id d2 item.node
                rw [show d2.graph = g from hg, show d2.direction = dir from hdir]
                  at this
                rw [← this]
                exact List.mem_map.mpr ⟨n, hmem, rfl⟩
              have hdepth : item.depth < k := by
                rcases hexp with hneg | hlt
                · rw [show d2.maxDepth = (k : Int) from hmax] at hneg
                  omega
                · rw [show d2.maxDepth = (k : Int) from hmax] at hlt
                  exact_mod_cast hlt
              constructor
              · rw [← hn2]
                exact mem_reachWithin_step hitem.1 hnid
              · rw [← hn2]
                show item.depth + 1 ≤ k
                omega
            · exact hstack it (by rw [hst]; right; exact hold)
          · rw [if_neg hexp] at hit
            exact hstack it (by rw [hst]; right; exact hit)
        have hyield : item.node.id ∈ reachWithin g dir root k :=
          mem_reachWithin_mono hitem.2 hitem.1
        have hvis3 : d3.visited = item.node.id :: d.visited := rfl
        -- the source returns `item` directly unless the range filter holds
        -- it back, in which case the loop continues on `d3`
        show DFSInv g dir k root (nextF (fuel + 1) d).2 ∧ _
        have hunfold : nextF (fuel + 1) d =
            match d3.rangeFilter with
            | some rf =>
              if d3.inRange ∨ rf.end_ item.node then (some item.node, d3)
              else nextF fuel d3
            | none => (some item.node, d3) := by
          conv_lhs => rw [nextF]
          simp only [hst, if_neg hv]
        rw [hunfold]
        cases hrf : d3.rangeFilter with
        | none =>
          dsimp only
          refine ⟨hinv3, fun i hi => List.mem_cons_of_mem _ hi, fun n hn => ?_⟩
          obtain rfl : item.node = n := by simpa using hn
          exact ⟨hyield, hv, List.mem_cons_self _ _⟩
        | some rf =>
          dsimp only
          by_cases hret : d3.inRange ∨ rf.end_ item.node = true
          · rw [if_pos hret]
            refine ⟨hinv3, fun i hi => List.mem_cons_of_mem _ hi,
              fun n hn => ?_⟩
            obtain rfl : item.node = n := by simpa using hn
            exact ⟨hyield, hv, List.mem_cons_self _ _⟩
          · rw [if_neg hret]
            obtain ⟨hi3, hm3, hs3⟩ := ih d3 hinv3
            refine ⟨hi3,
              fun i hi => hm3 i (by rw [hvis3]; exact List.mem_cons_of_mem _ hi),
              fun n hn => ?_⟩
            obtain ⟨hna, hnb, hnc⟩ := hs3 n hn
            refine ⟨hna,
              fun hmem => hnb (by rw [hvis3]; exact List.mem_cons_of_mem _ hmem),
              hnc⟩

theorem runF_spec (g : Store) (dir : Direction) (k : Nat) (root : String) :
    ∀ (fuel : Nat) (d : DFS), DFSInv g dir k root d →
    ((runF fuel d).1.map GNode.id).Nodup
    ∧ (∀ n ∈ (runF fuel d).1, n.id ∈ reachWithin g dir root k)
    ∧ (∀ n ∈ (runF fuel d).1, n.id ∉ d.visited) := by
  intro fuel
  induction fuel with
  | zero =>
    intro d hinv
    exact ⟨by simp [runF], by simp [runF], by simp [runF]⟩
  | succ fuel ih =>
    intro d hinv
    obtain ⟨hi1, hm1, hs1⟩ := nextF_spec g dir k root (fuel + 1) d hinv
    show ((runF (fuel + 1) d).1.map GNode.id).Nodup ∧ _
    cases hnx : nextF (fuel + 1) d with
    | mk res d' =>
      cases res with
      | none =>
        simp only [runF, hnx]
        exact ⟨List.nodup_nil, by simp, by simp⟩
      | some n =>
        rw [hnx] at hi1 hm1 hs1
        obtain ⟨hna, hnb, hnc⟩ := hs1 n rfl
        obtain ⟨ihn, ihr, ihv⟩ := ih d' hi1
        have hrun : runF (fuel + 1) d = (n :: (runF fuel d').1, (runF fuel d').2) := by
          simp only [runF, hnx]
        rw [hrun]
        refine ⟨?_, ?_, ?_⟩
        · simp only [List.map_cons, List.nodup_cons]
          refine ⟨fun hmem => ?_, ihn⟩
          obtain ⟨m, hm, hmid⟩ := List.mem_map.mp hmem
          exact ihv m hm (hmid ▸ hnc)
        · intro x hx
          rcases List.mem_cons.mp hx with rfl | hx
          · exact hna
          · exact ihr x hx
        · intro x hx
          rcases List.mem_cons.mp hx with rfl | hx
          · exact hnb
          · exact fun hmem => ihv x hx (hm1 x.id hmem)

/-- C1 (amended): with `max_depth = k ≥ 0` and a start node present in the
graph, draining the iterator (any number of `Next` calls) yields only nodes
whose shortest hop-distance from the start node (following edges of the
chosen direction) is at most `k`, and yields no node id twice.  The original
claim's completeness half — that every node within distance `k` is yielded —
is refuted by `C1_counterexample` below: a node first visited along a longer
path at exactly depth `k` is not expanded, so nodes behind it within the
bound are missed. -/
theorem C1_amended_dfs_sound (g : Store) (dir : Direction) (k : Nat)
    (startID : String) (d0 : DFS)
    (h : newDFS g startID [withDirection dir, withMaxDepth (k : Int)] = some d0)
    (fuel : Nat) :
    ((runF fuel d0).1.map GNode.id).Nodup
    ∧ ∃ sn, getNode g startID = some sn
        ∧ ∀ n ∈ (runF fuel d0).1, n.id ∈ reachWithin g dir sn.id k := by
  unfold newDFS at h
  cases hsn : getNode g startID with
  | none => rw [hsn] at h; simp at h
  | some sn =>
    rw [hsn] at h
    simp only [Option.map_some', Option.some.injEq] at h
    have hd0 : d0 = { graph := g, stack := [⟨sn, 0⟩], visited := [],
                      direction := dir, maxDepth := (k : Int),
                      rangeFilter := none, inRange := false } := by
      rw [← h]
      rfl
    have hinv : DFSInv g dir k sn.id d0 := by
      rw [hd0]
      refine ⟨rfl, rfl, rfl, ?_⟩
      intro it hit
      simp only [List.mem_singleton] at hit
      subst hit
      exact ⟨by simp [reachWithin], Nat.zero_le k⟩
    obtain ⟨hnodup, hreach, _⟩ := runF_spec g dir k sn.id fuel d0 hinv
    exact ⟨hnodup, sn, rfl, hreach⟩

/-- Concrete discharge of `C1_amended_dfs_sound` on `gC1` with
`max_depth = 2`. -/
theorem C1_amended_dfs_sound_witness :
    ((runF 10 ((newDFS gC1 "A"
        [withDirection .outgoing, withMaxDepth ((2 : Nat) : Int)]).getD
        dfsDefault)).1.map GNode.id).Nodup
    ∧ ∃ sn, getNode gC1 "A" = some sn
        ∧ ∀ n ∈ (runF 10 ((newDFS gC1 "A"
            [withDirection .outgoing, withMaxDepth ((2 : Nat) : Int)]).getD
            dfsDefault)).1,
          n.id ∈ reachWithin gC1 .outgoing sn.id 2 :=
  C1_amended_dfs_sound gC1 .outgoing 2 "A" _ (by rfl) 10

/-- C1 is false as stated: on `gC1` with `max_depth = 2`, draining the
iterator from `"A"` (the final stack is empty, so `Next` genuinely returned
`nil`) yields exactly `A, B, C`, yet `D` is within hop-distance 2 of `A` and
is never yielded. -/
theorem C1_counterexample :
    (newDFS gC1 "A" [withMaxDepth 2]).map
        (fun d => (runF 10 d).1.map GNode.id) = some ["A", "B", "C"]
    ∧ (newDFS gC1 "A" [withMaxDepth 2]).map
        (fun d => (runF 10 d).2.stack) = some []
    ∧ "D" ∈ reachWithin gC1 .outgoing "A" 2
    ∧ "D" ∉ (["A", "B", "C"] : List String) := by
  refine ⟨by rfl, by rfl, by decide, by decide⟩

/-- C5 (amended): `Iterate` can fail in exactly two ways — by propagating the
first error returned by the caller's visitor callback (at which point the
rest of the frontier is discarded un-visited), or by returning the internal
nil-node error when `HasNext` still reports a non-empty stack but every
remaining frontier entry has already been visited, so `Next` returns `nil`.
The original claim — that iteration errs only when the callback errs — is
refuted by `C5_counterexample` below. -/
theorem C5_amended_iterate_errors (fuel : Nat) (d : DFS)
    (f : GNode → Option String) :
    (iterateF fuel d f).1 = .ok ∨ (iterateF fuel d f).1 = .errNilNode
    ∨ ∃ n msg, (iterateF fuel d f).1 = .errCallback msg ∧ f n = some msg := by
  induction fuel generalizing d with
  | zero => exact Or.inl rfl
  | succ fuel ih =>
    show (iterateF (fuel + 1) d f).1 = .ok ∨ _
    rw [iterateF]
    by_cases hn : hasNext d
    · rw [if_pos hn]
      cases hnx : nextF (fuel + 1) d with
      | mk res d' =>
        cases res with
        | none => exact Or.inr (Or.inl rfl)
        | some n =>
          dsimp only
          cases hf : f n with
          | some msg => exact Or.inr (Or.inr ⟨n, msg, rfl, hf⟩)
          | none => exact ih d'
    · rw [if_neg hn]
      exact Or.inl rfl

/-- C5 is false as stated: on `gC5`, iterating from `"A"` with a visitor
that never returns an error still makes `Iterate` return an error (the
nil-node error), so "Iterate returns an error iff the callback returns one"
fails. -/
theorem C5_counterexample :
    (newDFS gC5 "A" []).map
        (fun d => (iterateF 20 d (fun _ => none)).1) = some .errNilNode
    ∧ ∀ n : GNode, (fun _ : GNode => (none : Option String)) n = none :=
  ⟨by rfl, fun _ => rfl⟩

theorem alookup_mem {α β : Type} [DecidableEq α] (l : List (α × β)) (k : α)
    (v : β) (h : alookup l k = some v) : (k, v) ∈ l := by
  induction l with
  | nil => simp [alookup] at h
  | cons p rest ih =>
    obtain ⟨a, b⟩ := p
    by_cases hk : k = a
    · subst hk
      simp [alookup] at h
      simp [h]
    · simp [alookup, hk] at h
      exact List.mem_cons_of_mem _ (ih h)

/-- C8 (amended): `AllNodes` hands out the live `*Node` pointers, not
copies.  A successful `UpdateNodeProps` with a non-empty property map leaves
the returned pointer slice unchanged and writes the merged properties
through the very address the earlier slice already holds, so the mutation
is observable through the previously returned slice.  The original claim —
that such mutations are *not* observable — is refuted by
`C8_counterexample`. -/
theorem C8_amended_allNodes_aliased (g : Store) (id : String)
    (ps : List (String × PropVal)) (g' : Store) (hne : ps ≠ [])
    (h : updateNodeProps g id (some ps) = (.ok, g')) :
    allNodes g' = allNodes g
    ∧ ∃ a n nps, alookup g.nodes id = some a ∧ a ∈ allNodes g
        ∧ alookup g.nodeHeap a = some n ∧ n.properties = some nps
        ∧ alookup g'.nodeHeap a = some (mergeProps n ps nps) := by
  unfold updateNodeProps at h
  cases ha : alookup g.nodes id with
  | none => rw [ha] at h; simp at h
  | some a =>
    rw [ha] at h
    dsimp only at h
    cases hn : alookup g.nodeHeap a with
    | none => rw [hn] at h; simp at h
    | some n =>
      rw [hn] at h
      dsimp only at h
      cases hps : ps with
      | nil => exact absurd hps hne
      | cons p rest =>
        rw [hps] at h
        dsimp only at h
        cases hnp : n.properties with
        | none => rw [hnp] at h; simp at h
        | some nps =>
          rw [hnp] at h
          dsimp only at h
          simp only [Prod.mk.injEq] at h
          refine ⟨?_, a, n, nps, rfl, ?_, hn, hnp, ?_⟩
          · rw [← h.2]
            rfl
          · exact List.mem_map.mpr ⟨(id, a), alookup_mem _ _ _ ha, rfl⟩
          · rw [← h.2]
            show alookup (ainsert g.nodeHeap a _) a = _
            rw [alookup_ainsert, if_pos rfl]
            rfl

/-- Concrete discharge of `C8_amended_allNodes_aliased` on a one-node
store. -/
theorem C8_amended_allNodes_aliased_witness :
    allNodes (updateNodeProps (addNode Store.new "A"
        (some [("k", PropVal.vInt 0)])).2 "A" (some [("k", PropVal.vInt 1)])).2
      = allNodes (addNode Store.new "A" (some [("k", PropVal.vInt 0)])).2
    ∧ ∃ a n nps,
        alookup (addNode Store.new "A" (some [("k", PropVal.vInt 0)])).2.nodes
          "A" = some a
        ∧ a ∈ allNodes (addNode Store.new "A" (some [("k", PropVal.vInt 0)])).2
        ∧ alookup (addNode Store.new "A"
            (some [("k", PropVal.vInt 0)])).2.nodeHeap a = some n
        ∧ n.properties = some nps
        ∧ alookup (updateNodeProps (addNode Store.new "A"
            (some [("k", PropVal.vInt 0)])).2 "A"
            (some [("k", PropVal.vInt 1)])).2.nodeHeap a
          = some (mergeProps n [("k", PropVal.vInt 1)] nps) :=
  C8_amended_allNodes_aliased _ "A" [("k", PropVal.vInt 1)] _
    (by decide) (by rfl)

/-- C8 is false as stated: after `AddNode("A", {k:0}); s := AllNodes();
UpdateNodeProps("A", {k:1})`, reading the nodes through the previously
returned slice `s` shows the updated properties, so the mutation *is*
observable through it. -/
theorem C8_counterexample :
    readThrough (updateNodeProps (addNode Store.new "A"
          (some [("k", PropVal.vInt 0)])).2 "A"
          (some [("k", PropVal.vInt 1)])).2
        (allNodes (addNode Store.new "A" (some [("k", PropVal.vInt 0)])).2)
      ≠ readThrough (addNode Store.new "A" (some [("k", PropVal.vInt 0)])).2
        (allNodes (addNode Store.new "A" (some [("k", PropVal.vInt 0)])).2)
    ∧ readThrough (updateNodeProps (addNode Store.new "A"
          (some [("k", PropVal.vInt 0)])).2 "A"
          (some [("k", PropVal.vInt 1)])).2
        (allNodes (addNode Store.new "A" (some [("k", PropVal.vInt 0)])).2)
      = [some ⟨"A", [], some [("k", PropVal.vInt 1)], PropVal.vNull⟩] := by
  refine ⟨by decide, by rfl⟩

/-- C9 is false on the code: `AddNode("A", nil)` succeeds storing a `nil`
properties map, and the expected follow-up call
`UpdateNodeProps("A", {k:1})` then hits a Go runtime panic (`assignment to
entry in nil map`) instead of returning a result or a typed error. -/
theorem C9_nil_props_panic :
    (addNode Store.new "A" none).1 = .ok
    ∧ (updateNodeProps (addNode Store.new "A" none).2 "A"
        (some [("k", PropVal.vInt 1)])).1
      = .panicked "assignment to entry in nil map" := by
  refine ⟨by rfl, by rfl⟩

/-! ## Snapshot loading (`internal/graph/save.go`)

Only the post-decode part of `LoadFromFile` is embedded (file IO and JSON
decoding are outside the model): the source first resets the three maps of
the target graph, then loads the decoded nodes (aborting on an empty id) and
edges (aborting when an endpoint is missing), so an abort leaves the cleared,
partially repopulated state behind. -/

/-- C4 is false on the code (the spec is the clear intent): loading an
invalid document into a store holding node `"X"` returns an error but has
already cleared the previous in-memory state — the node table afterwards is
empty, not the pre-call state — and a document with a duplicate node id is
accepted without any error (the later entry silently overwrites the
earlier), although the claim requires unique ids to be validated. -/
theorem C4_load_not_atomic :
    (loadFromFile (addNode Store.new "X" none).2
        ⟨[⟨"", [], none, .vNull⟩], []⟩).1 = .err .invalidInput
    ∧ (loadFromFile (addNode Store.new "X" none).2
        ⟨[⟨"", [], none, .vNull⟩], []⟩).2.nodes = []
    ∧ (addNode Store.new "X" none).2.nodes ≠ []
    ∧ (loadFromFile (addNode Store.new "X" none).2
        ⟨[⟨"A", [], none, .vNull⟩, ⟨"A", [], none, .vNull⟩], []⟩).1 = .ok := by
  refine ⟨by rfl, by rfl, by decide, by rfl⟩

/-! ## The query AST (`pkg/ast/ast.go` and the `cypher` drafts) -/


/-- C3 is false on the code (the spec mandates the behaviour, §9 of the spec
itself notes the source never enforces it): executing a query whose AST
carries `LIMIT 0` on the graph `A→B` returns one row — `ExecuteQuery` never
reads the `Order`, `Skip` or `Limit` fields, so they are silently ignored
rather than applied as a final post-processing step. -/
theorem C3_limit_ignored :
    executeQuery qC3 gC3 20
      = .ok [[("a", PropVal.vNull), ("b", PropVal.vNull)]]
    ∧ qC3.root.limit = some (.integerLiteral 0)
    ∧ qC3.root.skip = none ∧ qC3.root.order = [] := by
  refine ⟨by rfl, by rfl, by rfl, by rfl⟩

/-- C7: the executor's `IntegerLiteral` comparison agrees pointwise with the
spec's in-order coercion rule (each stored value admits at most one of the
four interpretations, so the kind switch of the code and the ordered
attempts of the spec coincide), and the predicate is `Bool`-valued — a
failed comparison yields `false`, never an error. -/
theorem C7_integer_coercion (np : Option NodePattern) (node : GNode) :
    nodeMatchesPattern np node = specNodeMatches np node := by
  cases np with
  | none => rfl
  | some np =>
    show nodeMatchesProps node np.properties = specNodeProps node np.properties
    induction np.properties with
    | nil => rfl
    | cons p rest ih =>
      obtain ⟨key, expr⟩ := p
      rw [nodeMatchesProps, specNodeProps]
      cases hv : (match node.properties with
        | none => none
        | some ps => alookup ps key) with
      | none => rfl
      | some nodeVal =>
        cases expr with
        | var s => rfl
        | symbol s => rfl
        | strLiteral v =>
          dsimp only
          by_cases hs : goSprint nodeVal ≠ v
          · rw [if_pos hs, if_pos hs]
          · rw [if_neg hs, if_neg hs]
            exact ih
        | integerLiteral expected =>
          dsimp only
          cases nodeVal with
          | vInt n =>
            by_cases hn : n = expected <;>
              simp [hn, specIntegerMatch, asIntegerInterp, ih]
          | vUint u =>
            by_cases hn : uintToInt u = expected <;>
              simp [hn, specIntegerMatch, asIntegerInterp, asUnsignedInterp,
                Option.orElse, ih]
          | vFloat q =>
            by_cases hn : goTrunc q = expected <;>
              simp [hn, specIntegerMatch, asIntegerInterp, asUnsignedInterp,
                asFloatTruncInterp, Option.orElse, ih]
          | vStr st =>
            cases ha : goAtoi st with
            | none =>
              simp [specIntegerMatch, asIntegerInterp, asUnsignedInterp,
                asFloatTruncInterp, asStringIntInterp, Option.orElse, ha]
            | some parsed =>
              by_cases hn : parsed = expected <;>
                simp [hn, specIntegerMatch, asIntegerInterp, asUnsignedInterp,
                  asFloatTruncInterp, asStringIntInterp, Option.orElse, ha, ih]
          | vBool b =>
            simp [specIntegerMatch, asIntegerInterp, asUnsignedInterp,
              asFloatTruncInterp, asStringIntInterp, Option.orElse]
          | vNull =>
            simp [specIntegerMatch, asIntegerInterp, asUnsignedInterp,
              asFloatTruncInterp, asStringIntInterp, Option.orElse]

/-! ## The `pkg/ast` scanner and parser (claim C10)

The reader's position bookkeeping (`Pos`) only feeds error messages and is
omitted; the ring-buffer `read`/`unread` of the source is modelled by
returning, next to each token, the remaining character stream with any
pushed-back characters re-included.  The parser's `bufScanner` is modelled
by pre-tokenizing (token production does not depend on parser state) and an
index with `Unscan` as decrement. -/

/-- C10: parsing `MATCH (a \x7bk: 'v'\x7d)-[*1..3]->(b) RETURN a, b;` succeeds and
yields exactly one `ReadingClause` holding one `MatchPattern` whose elements
are `[NodePattern a, EdgePattern, NodePattern b]` with `minHops = 1` and
`maxHops = 3`, and exactly the two return items `a` and `b`. -/
theorem C10_parse_example :
    parseCypher 99 c10Input =
      .ok (some
        ⟨[⟨false,
            [⟨none,
              [.node ⟨some "a", [], [("k", .strLiteral "v")]⟩,
               .edge ⟨.edgeRight, none, [], [], some 1, some 3⟩,
               .node ⟨some "b", [], []⟩]⟩],
            none⟩],
          false, [.var "a", .var "b"], [], none, none⟩) := by
  rfl

end Grapher
